import Mathlib

/-!
Verification development for the `rzeigler/raytracing` repository.

The repository's geometry core (`src/geom.rs`, plus the older snapshots
`src/data.rs`, `src/draw.rs`, `src/main.rs`, `src/ppm.rs`, `src/tracer.rs`)
is shallowly embedded here.  `f64` values are modelled by real numbers; the
interval bounds `min_t`/`max_t` of the `Hittable::hit` contract are modelled
by `EReal`, which faithfully represents the ordered `f64` line including the
`f64::INFINITY` bound that `ray_color` and `Sphere::new` actually use.
-/

open Classical

namespace Raytrace

noncomputable section

/-- `Vec3` from `src/geom.rs`: three real components. -/
structure Vec3 where
  x : ℝ
  y : ℝ
  z : ℝ

namespace Vec3

/-- `Vec3::zero`. -/
def zero : Vec3 := ⟨0, 0, 0⟩

/-- Componentwise addition (`impl Add for Vec3`). -/
def add (a b : Vec3) : Vec3 := ⟨a.x + b.x, a.y + b.y, a.z + b.z⟩

/-- Componentwise subtraction (`impl Sub for Vec3`). -/
def sub (a b : Vec3) : Vec3 := ⟨a.x - b.x, a.y - b.y, a.z - b.z⟩

/-- Componentwise (Hadamard) multiplication (`impl Mul for Vec3`). -/
def hmul (a b : Vec3) : Vec3 := ⟨a.x * b.x, a.y * b.y, a.z * b.z⟩

/-- Scalar multiplication (`impl Mul<f64> for Vec3`). -/
def smul (k : ℝ) (a : Vec3) : Vec3 := ⟨k * a.x, k * a.y, k * a.z⟩

/-- Scalar division (`impl Div<f64> for Vec3`). -/
def divs (a : Vec3) (k : ℝ) : Vec3 := ⟨a.x / k, a.y / k, a.z / k⟩

/-- `Vec3::invert` / `Vec3::flip`: componentwise negation. -/
def neg (a : Vec3) : Vec3 := ⟨-a.x, -a.y, -a.z⟩

/-- `Vec3::length_squared`. -/
def lengthSquared (a : Vec3) : ℝ := a.x ^ 2 + a.y ^ 2 + a.z ^ 2

/-- `Vec3::length`. -/
def length (a : Vec3) : ℝ := Real.sqrt a.lengthSquared

/-- `Vec3::dot`. -/
def dot (a b : Vec3) : ℝ := a.x * b.x + a.y * b.y + a.z * b.z

/-- `Vec3::unit`: `self / self.length()`. -/
def unit (a : Vec3) : Vec3 := a.divs a.length

end Vec3

instance : Add Vec3 := ⟨Vec3.add⟩
instance : Sub Vec3 := ⟨Vec3.sub⟩
instance : Mul Vec3 := ⟨Vec3.hmul⟩
instance : SMul ℝ Vec3 := ⟨Vec3.smul⟩
instance : Neg Vec3 := ⟨Vec3.neg⟩

theorem Vec3.add_def (a b : Vec3) : a + b = ⟨a.x + b.x, a.y + b.y, a.z + b.z⟩ := rfl
theorem Vec3.sub_def (a b : Vec3) : a - b = ⟨a.x - b.x, a.y - b.y, a.z - b.z⟩ := rfl
theorem Vec3.hmul_def (a b : Vec3) : a * b = ⟨a.x * b.x, a.y * b.y, a.z * b.z⟩ := rfl
theorem Vec3.smul_def (k : ℝ) (a : Vec3) : k • a = ⟨k * a.x, k * a.y, k * a.z⟩ := rfl
theorem Vec3.neg_def (a : Vec3) : -a = ⟨-a.x, -a.y, -a.z⟩ := rfl

/-- The three coordinate axes (`enum Axis` in `src/geom.rs`). -/
inductive Axis where
  | X
  | Y
  | Z
deriving DecidableEq

/-- Select a component of a vector by axis (models `data[a]` indexing). -/
def axisGet (a : Axis) (v : Vec3) : ℝ :=
  match a with
  | .X => v.x
  | .Y => v.y
  | .Z => v.z

/-- `Ray` from `src/geom.rs`: origin, direction, and cast time. -/
structure Ray where
  origin : Vec3
  direction : Vec3
  time : ℝ

namespace Ray

/-- `Ray::new`: time defaults to `0.0`. -/
def new (origin direction : Vec3) : Ray := ⟨origin, direction, 0⟩

/-- `Ray::new_at`. -/
def newAt (origin direction : Vec3) (at_ : ℝ) : Ray := ⟨origin, direction, at_⟩

/-- `Ray::at`: `origin + t * direction`. -/
def at' (r : Ray) (t : ℝ) : Vec3 := r.origin + t • r.direction

end Ray

/-- `AABB` from `src/geom.rs`. -/
structure AABB where
  min : Vec3
  max : Vec3

/-- `surrounding_box` from `src/geom.rs`: componentwise min of minima and
max of maxima. -/
def surroundingBox (box0 box1 : AABB) : AABB :=
  { min := ⟨Min.min box0.min.x box1.min.x, Min.min box0.min.y box1.min.y,
            Min.min box0.min.z box1.min.z⟩
    max := ⟨Max.max box0.max.x box1.max.x, Max.max box0.max.y box1.max.y,
            Max.max box0.max.z box1.max.z⟩ }

/-- One axis iteration of `AABB::hit`'s slab loop.  The source's
`let tmin = ...` / `let tmax = ...` rebindings shadow the function
parameters only until the end of the iteration, so each axis is tested
against the ORIGINAL `[t_min, t_max]` bounds: no narrowing carries over to
later axes.  The iteration-local shadowing is mirrored here by the inner
`let tmin`/`let tmax`. -/
def slabCheck (b : AABB) (r : Ray) (a : Axis) (tmin tmax : EReal) : Bool :=
  let invD := 1 / axisGet a r.direction
  let ta := (axisGet a b.min - axisGet a r.origin) * invD
  let tb := (axisGet a b.max - axisGet a r.origin) * invD
  let t0 := if invD < 0 then tb else ta
  let t1 := if invD < 0 then ta else tb
  let tmin := if (t0 : EReal) > tmin then (t0 : EReal) else tmin
  let tmax := if (t1 : EReal) < tmax then (t1 : EReal) else tmax
  if tmax ≤ tmin then false else true

/-- `AABB::hit` from `src/geom.rs`: the slab loop over the axes X, Y, Z in
order with an early `return false`.  Because the narrowed bounds are
iteration-local (see `slabCheck`), the loop is the conjunction of three
independent per-axis checks against the original `[t_min, t_max]`. -/
def aabbHit (b : AABB) (r : Ray) (tmin tmax : EReal) : Bool :=
  slabCheck b r .X tmin tmax &&
    (slabCheck b r .Y tmin tmax && slabCheck b r .Z tmin tmax)

/-- The lower endpoint of the per-axis slab interval of `AABB::hit` (the
value called `t0` after the negative-direction swap). -/
def slabLo (b : AABB) (r : Ray) (a : Axis) : ℝ :=
  let invD := 1 / axisGet a r.direction
  let ta := (axisGet a b.min - axisGet a r.origin) * invD
  let tb := (axisGet a b.max - axisGet a r.origin) * invD
  if invD < 0 then tb else ta

/-- The upper endpoint of the per-axis slab interval of `AABB::hit` (the
value called `t1` after the negative-direction swap). -/
def slabHi (b : AABB) (r : Ray) (a : Axis) : ℝ :=
  let invD := 1 / axisGet a r.direction
  let ta := (axisGet a b.min - axisGet a r.origin) * invD
  let tb := (axisGet a b.max - axisGet a r.origin) * invD
  if invD < 0 then ta else tb

/-- Componentwise box containment: `sub` lies inside `sup`. -/
def boxSub (sub sup : AABB) : Prop :=
  sup.min.x ≤ sub.min.x ∧ sup.min.y ≤ sub.min.y ∧ sup.min.z ≤ sub.min.z ∧
    sub.max.x ≤ sup.max.x ∧ sub.max.y ≤ sup.max.y ∧ sub.max.z ≤ sup.max.z

/-- The three material variants of `src/geom.rs` (`Lambertian`, `Metal`,
`Dielectric`), as a closed sum. -/
inductive Material where
  | lambertian (albedo : Vec3)
  | metal (albedo : Vec3) (fuzz : ℝ)
  | dielectric (refIdx : ℝ)

/-- `Hit` from `src/geom.rs` (the material reference is modelled by value). -/
structure Hit where
  point : Vec3
  normal : Vec3
  t : ℝ
  frontFace : Bool
  material : Material

/-- `Hit::new`: orient the outward normal against the incoming ray. -/
def hitNew (point outwardNormal : Vec3) (t : ℝ) (r : Ray) (material : Material) :
    Hit :=
  if r.direction.dot outwardNormal < 0 then
    ⟨point, outwardNormal, t, true, material⟩
  else
    ⟨point, outwardNormal.neg, t, false, material⟩

/-- `Scatter` from `src/geom.rs`. -/
structure Scatter where
  scattered : Ray
  attenuation : Vec3

/-- `reflect` from `src/geom.rs`: `v - 2*dot(v,n)*n`. -/
def reflect (v n : Vec3) : Vec3 := v - (2 * v.dot n) • n

/-- `refact` (sic) from `src/geom.rs`: Snell refraction decomposition. -/
def refact (uv n : Vec3) (etaiOverEtat : ℝ) : Vec3 :=
  let cosTheta := uv.neg.dot n
  let rOutParallel := etaiOverEtat • (uv + cosTheta • n)
  let rOutPerp := (-(Real.sqrt (1 - rOutParallel.lengthSquared))) • n
  rOutParallel + rOutPerp

/-- `schlick` from `src/geom.rs`. -/
def schlick (cosine refIdx : ℝ) : ℝ :=
  let r0 := ((1 - refIdx) / (1 + refIdx)) ^ 2
  r0 + (1 - r0) * (1 - cosine) ^ 5

/-- The `Material::scatter` dispatch of `src/geom.rs`.  The thread RNG is
modelled by passing the unit-ball sample `ball` and the uniform draw `u`
that a single `scatter` call can consume. -/
def scatter (m : Material) (ray : Ray) (hit : Hit) (ball : Vec3) (u : ℝ) :
    Option Scatter :=
  match m with
  | .lambertian albedo =>
      let scatterDirection := hit.normal + ball
      some ⟨Ray.newAt hit.point scatterDirection ray.time, albedo⟩
  | .metal albedo fuzz =>
      let reflected := reflect ray.direction.unit hit.normal
      let scattered := Ray.newAt hit.point (reflected + fuzz • ball) ray.time
      if scattered.direction.dot hit.normal > 0 then
        some ⟨scattered, albedo⟩
      else
        none
  | .dielectric refIdx =>
      let attenuation : Vec3 := ⟨1, 1, 1⟩
      let etaiOverEtat := if hit.frontFace then 1 / refIdx else refIdx
      let unitDirection := ray.direction.unit
      let cosTheta := Min.min (unitDirection.neg.dot hit.normal) 1
      let sinTheta := Real.sqrt (1 - cosTheta ^ 2)
      let reflectProb := schlick cosTheta etaiOverEtat
      if etaiOverEtat * sinTheta > 1 ∨ u < reflectProb then
        let reflected := reflect unitDirection hit.normal
        some ⟨Ray.newAt hit.point reflected ray.time, attenuation⟩
      else
        let refacted := refact unitDirection hit.normal etaiOverEtat
        some ⟨Ray.newAt hit.point refacted ray.time, attenuation⟩

/-- `Timed<Vec3>` from `src/geom.rs`.  The keyframe time is an extended real
so that the `f64::INFINITY` stored by `Sphere::new` is representable. -/
structure Timed where
  value : Vec3
  time : EReal

/-- `Sphere` from `src/geom.rs`: two keyframed centers, radius, material. -/
structure Sphere where
  center0 : Timed
  center1 : Timed
  radius : ℝ
  material : Material

namespace Sphere

/-- `Sphere::new`: a static sphere is a moving sphere whose second keyframe
is the same center at time `f64::INFINITY`. -/
def new (center : Vec3) (radius : ℝ) (material : Material) : Sphere :=
  { center0 := ⟨center, ((0 : ℝ) : EReal)⟩
    center1 := ⟨center, ⊤⟩
    radius := radius
    material := material }

/-- `Sphere::new_moving`. -/
def newMoving (center0 center1 : Timed) (radius : ℝ) (material : Material) :
    Sphere :=
  ⟨center0, center1, radius, material⟩

/-- `Sphere::center`: linear interpolation of the two keyframes at the ray
time.  The interpolation coefficient is computed in `EReal` (matching the
`f64` arithmetic on the infinite keyframe time) and then applied to the
finite center difference. -/
def center (s : Sphere) (time : ℝ) : Vec3 :=
  s.center0.value +
    ((((time : EReal) - s.center0.time) / (s.center1.time - s.center0.time)).toReal) •
      (s.center1.value - s.center0.value)

end Sphere

/-- `Sphere::hit` from `src/geom.rs`: quadratic solve, smaller root tested
first, then the larger, each against the open interval `(min_t, max_t)`. -/
def sphereHit (s : Sphere) (r : Ray) (minT maxT : EReal) : Option Hit :=
  let oc := r.origin - s.center r.time
  let a := r.direction.lengthSquared
  let halfB := oc.dot r.direction
  let c := oc.lengthSquared - s.radius * s.radius
  let discriminant := halfB * halfB - a * c
  if discriminant < 0 then none
  else
    let root := Real.sqrt discriminant
    let t := (-halfB - root) / a
    if (t : EReal) < maxT ∧ (t : EReal) > minT then
      let point := r.at' t
      let outwardNormal := (point - s.center r.time).divs s.radius
      some (hitNew point outwardNormal t r s.material)
    else
      let t := (-halfB + root) / a
      if (t : EReal) < maxT ∧ (t : EReal) > minT then
        let point := r.at' t
        let outwardNormal := (point - s.center r.time).divs s.radius
        some (hitNew point outwardNormal t r s.material)
      else none

/-- The `oc` vector of `Sphere::hit` (`src/geom.rs`). -/
def sphereOC (s : Sphere) (r : Ray) : Vec3 := r.origin - s.center r.time

/-- The `a` coefficient of `Sphere::hit` (`src/geom.rs`). -/
def sphereA (r : Ray) : ℝ := r.direction.lengthSquared

/-- The `half_b` coefficient of `Sphere::hit` (`src/geom.rs`). -/
def sphereHalfB (s : Sphere) (r : Ray) : ℝ := (sphereOC s r).dot r.direction

/-- The `c` coefficient of `Sphere::hit` (`src/geom.rs`). -/
def sphereC (s : Sphere) (r : Ray) : ℝ :=
  (sphereOC s r).lengthSquared - s.radius * s.radius

/-- The discriminant of `Sphere::hit` (`src/geom.rs`). -/
def sphereDisc (s : Sphere) (r : Ray) : ℝ :=
  sphereHalfB s r * sphereHalfB s r - sphereA r * sphereC s r

/-- The smaller quadratic root tested first by `Sphere::hit`. -/
def sphereT1 (s : Sphere) (r : Ray) : ℝ :=
  (-sphereHalfB s r - Real.sqrt (sphereDisc s r)) / sphereA r

/-- The larger quadratic root tested second by `Sphere::hit`. -/
def sphereT2 (s : Sphere) (r : Ray) : ℝ :=
  (-sphereHalfB s r + Real.sqrt (sphereDisc s r)) / sphereA r

/-- `Sphere::bounding_box` from `src/geom.rs`: the union of the two cubes
around the centers at the window endpoints. -/
def sphereBoundingBox (s : Sphere) (t0 t1 : ℝ) : AABB :=
  let box0 : AABB :=
    ⟨s.center t0 - ⟨s.radius, s.radius, s.radius⟩,
     s.center t0 + ⟨s.radius, s.radius, s.radius⟩⟩
  let box1 : AABB :=
    ⟨s.center t1 - ⟨s.radius, s.radius, s.radius⟩,
     s.center t1 + ⟨s.radius, s.radius, s.radius⟩⟩
  surroundingBox box0 box1

/-- The box-merging `match` used by `BVHNode::new` (and
`Collection::bounding_box`): merge two optional boxes, treating a missing
box as absent rather than infinite. -/
def mergeBoxOpt : Option AABB → Option AABB → Option AABB
  | some l, some r => some (surroundingBox l r)
  | some l, none => some l
  | none, some r => some r
  | none, none => none

/-- The `dyn Hittable` values that the BVH builder manipulates: sphere
leaves, internal `BVHNode`s with their cached box, and the `Ephemeral`
placeholder. -/
inductive Hittable where
  | sphere (s : Sphere)
  | bvhnode (left right : Hittable) (aabb : Option AABB)
  | ephemeral

/-- `Hittable::hit` dispatch: `Sphere::hit`, `BVHNode::hit` (prune by the
cached box, query left, narrow `max_t`, query right, prefer the right
result), and `Ephemeral::hit` (never hits). -/
def hitH : Hittable → Ray → EReal → EReal → Option Hit
  | .sphere s, r, minT, maxT => sphereHit s r minT maxT
  | .bvhnode left right aabb, r, minT, maxT =>
      match aabb with
      | some b =>
          if aabbHit b r minT maxT then
            let hitLeft := hitH left r minT maxT
            let maxT' := hitLeft.elim maxT (fun h => ((h.t : ℝ) : EReal))
            let hitRight := hitH right r minT maxT'
            hitRight.or hitLeft
          else none
      | none => none
  | .ephemeral, _, _, _ => none

/-- `Hittable::bounding_box` dispatch: the sphere's box, a `BVHNode`'s
cached box (ignoring the window arguments), and `None` for `Ephemeral`. -/
def boundingBoxH : Hittable → ℝ → ℝ → Option AABB
  | .sphere s, t0, t1 => some (sphereBoundingBox s t0 t1)
  | .bvhnode _ _ aabb, _, _ => aabb
  | .ephemeral, _, _ => none

/-- `Collection::hit` from `src/geom.rs`: fold over the children, narrowing
`max_t` to the best `t` found so far and preferring a new hit. -/
def collectionHit (hs : List Hittable) (r : Ray) (minT maxT : EReal) :
    Option Hit :=
  hs.foldl
    (fun currentHit hittable =>
      (hitH hittable r minT (currentHit.elim maxT (fun h => ((h.t : ℝ) : EReal)))).or
        currentHit)
    none

/-- `min_on_axis` from `src/geom.rs`: the bounding-box minimum on the given
axis, defaulting to `0.0` when the hittable has no bounding box. -/
def minOnAxis (axis : Axis) (h : Hittable) (t0 t1 : ℝ) : ℝ :=
  ((boundingBoxH h t0 t1).map (fun b => axisGet axis b.min)).getD 0

/-- The `sort_by` key order of `bvh_split_hittables` for a given axis. -/
def bvhKeyLe (axis : Axis) (t0 t1 : ℝ) (l rg : Hittable) : Prop :=
  minOnAxis axis l t0 t1 ≤ minOnAxis axis rg t0 t1

/-- `BVHNode::new` from `src/geom.rs`: cache the merged child boxes. -/
def bvhNodeNew (left right : Hittable) (t0 t1 : ℝ) : Hittable :=
  .bvhnode left right (mergeBoxOpt (boundingBoxH left t0 t1) (boundingBoxH right t0 t1))

/-- `bvh_split_hittables` from `src/geom.rs`.  The thread RNG is modelled by
the list `axes` of axis draws, consumed in call order and threaded through
the recursion; `Rust`'s stable `sort_by` on the `min_on_axis` key is
modelled by the stable insertion sort on the same total key order. -/
def bvhSplitAux (axes : List Axis) (hittables : List Hittable) (t0 t1 : ℝ) :
    Hittable × List Axis :=
  match hittables with
  | [] => (.ephemeral, axes)
  | [h] => (h, axes)
  | a :: b :: rest =>
      let axis := axes.headD Axis.X
      let sorted :=
        (a :: b :: rest).insertionSort
          (fun l rg => minOnAxis axis l t0 t1 ≤ minOnAxis axis rg t0 t1)
      let point := (a :: b :: rest).length / 2
      let leftPair := bvhSplitAux axes.tail (sorted.take point) t0 t1
      let rightPair := bvhSplitAux leftPair.2 (sorted.drop point) t0 t1
      (bvhNodeNew leftPair.1 rightPair.1 t0 t1, rightPair.2)
  termination_by hittables.length
  decreasing_by
  all_goals
    simp only [List.length_take, List.length_drop, List.length_insertionSort,
      List.length_cons]
  all_goals omega

/-- `bvh_split_hittables`, returning the built tree. -/
def bvhSplit (axes : List Axis) (hittables : List Hittable) (t0 t1 : ℝ) :
    Hittable :=
  (bvhSplitAux axes hittables t0 t1).1

/-- The candidate hit parameters of a sphere for a ray: the two quadratic
roots when the discriminant is non-negative, none otherwise. -/
def sphereCands (s : Sphere) (r : Ray) : List ℝ :=
  if 0 ≤ sphereDisc s r then [sphereT1 s r, sphereT2 s r] else []

/-- Candidate hit parameters of a hittable tree leaf (sphere leaves only;
internal nodes and `Ephemeral` contribute none of their own). -/
def candH (r : Ray) : Hittable → List ℝ
  | .sphere s => sphereCands s r
  | _ => []

/-- The per-axis coordinates of the interpolated center at the query time
lie between the coordinates at the two window endpoints (true of static
spheres everywhere, and of moving spheres queried inside the window). -/
def CenterBetween (s : Sphere) (t0 t1 τ : ℝ) : Prop :=
  ∀ a : Axis,
    Min.min (axisGet a (s.center t0)) (axisGet a (s.center t1)) ≤
        axisGet a (s.center τ) ∧
      axisGet a (s.center τ) ≤
        Max.max (axisGet a (s.center t0)) (axisGet a (s.center t1))

/-- `cur` is a minimal candidate of `ts` strictly inside `(mn, mx)`, or
`none` when there is no such candidate. -/
def InvAt (mn mx : EReal) (cur : Option Hit) (ts : List ℝ) : Prop :=
  (∀ h : Hit, cur = some h →
      h.t ∈ ts ∧ mn < ((h.t : ℝ) : EReal) ∧ ((h.t : ℝ) : EReal) < mx ∧
        ∀ u ∈ ts, mn < ((u : ℝ) : EReal) → ((u : ℝ) : EReal) < mx → h.t ≤ u) ∧
    (cur = none →
      ∀ u ∈ ts, ¬(mn < ((u : ℝ) : EReal) ∧ ((u : ℝ) : EReal) < mx))

/-- An interval hit query realizes closest-hit semantics over the candidate
set `ts`. -/
def RepH (f : EReal → EReal → Option Hit) (ts : List ℝ) : Prop :=
  ∀ mn mx : EReal, InvAt mn mx (f mn mx) ts

/-- The box reports a hit on every query interval that strictly contains a
candidate parameter. -/
def Covers (r : Ray) (b : AABB) (ts : List ℝ) : Prop :=
  ∀ (mn mx : EReal) (u : ℝ), u ∈ ts → mn < ((u : ℝ) : EReal) →
    ((u : ℝ) : EReal) < mx → aabbHit b r mn mx = true

/-- Leaves are spheres with positive radius and window-coherent centers. -/
def SphereLeaves (r : Ray) (t0 t1 : ℝ) (hs : List Hittable) : Prop :=
  ∀ h ∈ hs, ∃ s : Sphere,
    h = .sphere s ∧ 0 < s.radius ∧ CenterBetween s t0 t1 r.time

/-- The BVH subtree built from `hs` with axis draws `axes` realizes
closest-hit semantics over the leaf candidates, and (when nonempty) carries
a cached box covering them. -/
def BVHGood (r : Ray) (t0 t1 : ℝ) (hs : List Hittable) (axes : List Axis) : Prop :=
  RepH (hitH (bvhSplit axes hs t0 t1) r) ((hs.map (candH r)).flatten) ∧
    (hs ≠ [] → ∃ b : AABB,
      boundingBoxH (bvhSplit axes hs t0 t1) t0 t1 = some b ∧
        Covers r b ((hs.map (candH r)).flatten))

/-- `Pixel` from `src/draw.rs` / the `trace` module of `src/main.rs`. -/
structure Pixel where
  v : Vec3

/-- `random_in_hemisphere` from `src/draw.rs` and `src/main.rs`, with the
unit-ball RNG sample passed explicitly. -/
def randomInHemisphere (ball normal : Vec3) : Vec3 :=
  if ball.dot normal > 0 then ball else ball.neg

/-- `ray_color` from `src/draw.rs`: depth-limited recursive path tracing.
The thread RNG is modelled by the stream `rng` of (unit-ball sample,
uniform draw) pairs; each bounce consumes the head of the stream.  The
scene query interval is `(0.001, f64::INFINITY)` as in the source. -/
def rayColor (rng : ℕ → Vec3 × ℝ) (ray : Ray) (world : Hittable) : ℕ → Pixel
  | 0 => ⟨Vec3.zero⟩
  | depth + 1 =>
      match hitH world ray (((0.001 : ℝ)) : EReal) ⊤ with
      | some hit =>
          match scatter hit.material ray hit (rng 0).1 (rng 0).2 with
          | some sc =>
              ⟨sc.attenuation * (rayColor (fun n => rng (n + 1)) sc.scattered world depth).v⟩
          | none => ⟨Vec3.zero⟩
      | none =>
          let unit := ray.direction.unit
          let t := 0.5 * (unit.y + 1)
          ⟨(1 - t) • (⟨1, 1, 1⟩ : Vec3) + t • (⟨0.5, 0.7, 1.0⟩ : Vec3)⟩

/-- `trace::ray_color` from `src/main.rs`: the hemisphere-diffuse variant
with the same depth cutoff and background gradient. -/
def rayColorMain (rng : ℕ → Vec3) (ray : Ray) (world : Hittable) : ℕ → Pixel
  | 0 => ⟨Vec3.zero⟩
  | depth + 1 =>
      match hitH world ray (((0.001 : ℝ)) : EReal) ⊤ with
      | some hit =>
          let target := hit.point + hit.normal + randomInHemisphere (rng 0) hit.normal
          ⟨(0.5 : ℝ) •
            (rayColorMain (fun n => rng (n + 1))
              (Ray.new hit.point (target - hit.point)) world depth).v⟩
      | none =>
          let unit := ray.direction.unit
          let t := 0.5 * (unit.y + 1)
          ⟨(1 - t) • (⟨1, 1, 1⟩ : Vec3) + t • (⟨0.5, 0.7, 1.0⟩ : Vec3)⟩

/-- `Ray` from the older snapshot `src/data.rs`: no time component. -/
structure DRay where
  origin : Vec3
  direction : Vec3

/-- `Ray::at` from `src/data.rs`. -/
def DRay.at' (r : DRay) (t : ℝ) : Vec3 := r.origin + t • r.direction

/-- `Hit` from `src/data.rs`: no material reference. -/
structure DHit where
  point : Vec3
  normal : Vec3
  t : ℝ
  frontFace : Bool

/-- `Hit::new` from `src/data.rs`. -/
def dHitNew (point : Vec3) (t : ℝ) (ray : DRay) (outwardNormal : Vec3) : DHit :=
  if ray.direction.dot outwardNormal < 0 then
    ⟨point, outwardNormal, t, true⟩
  else
    ⟨point, (-1 : ℝ) • outwardNormal, t, false⟩

/-- `Sphere` from `src/data.rs`: static center and radius only. -/
structure DataSphere where
  center : Vec3
  radius : ℝ

/-- `impl CanHit for Sphere` from `src/data.rs`: requires a strictly
positive discriminant, computes both candidate hits, and returns
`found2.or(found1)`. -/
def dataSphereHit (s : DataSphere) (ray : DRay) (tMin tMax : EReal) :
    Option DHit :=
  let oc := ray.origin - s.center
  let a := ray.direction.lengthSquared
  let halfB := oc.dot ray.direction
  let c := oc.lengthSquared - s.radius ^ 2
  let discriminant := halfB ^ 2 - a * c
  if discriminant > 0 then
    let root := Real.sqrt discriminant
    let t1 := (-halfB - root) / a
    let found1 :=
      if (t1 : EReal) < tMax ∧ (t1 : EReal) > tMin then
        some (dHitNew (ray.at' t1) t1 ray ((ray.at' t1 - s.center).divs s.radius))
      else none
    let t2 := (-halfB + root) / a
    let found2 :=
      if (t2 : EReal) < tMax ∧ (t2 : EReal) > tMin then
        some (dHitNew (ray.at' t2) t2 ray ((ray.at' t2 - s.center).divs s.radius))
      else none
    found2.or found1
  else none

/-- The discriminant of the `src/data.rs` sphere hit. -/
def dataDisc (s : DataSphere) (r : DRay) : ℝ :=
  ((r.origin - s.center).dot r.direction) ^ 2 -
    r.direction.lengthSquared * ((r.origin - s.center).lengthSquared - s.radius ^ 2)

/-- The smaller quadratic root of the `src/data.rs` sphere hit. -/
def dataT1 (s : DataSphere) (r : DRay) : ℝ :=
  (-((r.origin - s.center).dot r.direction) - Real.sqrt (dataDisc s r)) /
    r.direction.lengthSquared

/-- The larger quadratic root of the `src/data.rs` sphere hit. -/
def dataT2 (s : DataSphere) (r : DRay) : ℝ :=
  (-((r.origin - s.center).dot r.direction) + Real.sqrt (dataDisc s r)) /
    r.direction.lengthSquared

/-- Modelled from the spec: the `UNIT` constant referenced by
`src/tracer.rs` is not present in `src/` (its `data.rs` snapshot is
missing); the spec describes the miss gradient as a lerp from white, so
`UNIT` is the white vector `(1,1,1)`. -/
def UNIT : Vec3 := ⟨1, 1, 1⟩

/-- `ray_color` from `src/tracer.rs`: note the coefficient is
`0.5 * unit_direction.y() + 1.0`, which by precedence is `(0.5*y) + 1`. -/
def tracerRayColor (ray : DRay) : Vec3 :=
  let unitDirection := ray.direction.unit
  let t := 0.5 * unitDirection.y + 1
  ((1 - t) • UNIT) + (t • (⟨0.5, 0.7, 1.0⟩ : Vec3))

/-- Modelled from the spec: the `Canvas` consumed by `src/ppm.rs` (a
width-by-height grid of `Vec3` colors indexed by `at(row, col)`) comes
from a `data.rs` snapshot that is not in `src/`; the spec describes it as
a width-by-height grid supporting per-pixel reads in the renderer's row
order. -/
structure Canvas where
  width : ℕ
  height : ℕ
  pix : ℕ → ℕ → Vec3

/-- `Canvas::at`, reading the pixel at `(row, col)`. -/
def Canvas.at' (c : Canvas) (row col : ℕ) : Vec3 := c.pix row col

/-- A Rust `f64 as u8` saturating cast: truncate toward zero and clamp into
`[0, 255]` (for the clamped range this equals clamping the floor). -/
def f64AsU8 (x : ℝ) : ℕ := (Min.min 255 (Max.max 0 ⌊x⌋)).toNat

/-- `write_pixel` from `src/ppm.rs`: one `R G B` line, each channel scaled
by `255.99` and cast to `u8`. -/
def writePixel (p : Vec3) : String :=
  toString (f64AsU8 (p.x * 255.99)) ++ " " ++
    toString (f64AsU8 (p.y * 255.99)) ++ " " ++
    toString (f64AsU8 (p.z * 255.99)) ++ "\n"

/-- `write` from `src/ppm.rs`: the `P3` header line followed by the pixel
lines, rows iterated from `height-1` down to `0`. -/
def ppmWrite (canvas : Canvas) : String :=
  (List.range canvas.height).reverse.foldl
    (fun acc j =>
      (List.range canvas.width).foldl
        (fun acc2 i => acc2 ++ writePixel (canvas.at' j i)) acc)
    ("P3\n" ++ toString canvas.width ++ " " ++ toString canvas.height ++ "\n255\n")

end

attribute [ext] Vec3 AABB

theorem Vec3.zero_def : Vec3.zero = ⟨0, 0, 0⟩ := rfl

theorem smul_zero_vec (k : ℝ) : k • (⟨0, 0, 0⟩ : Vec3) = ⟨0, 0, 0⟩ := by
  simp [Vec3.smul_def]

theorem add_zero_vec (v : Vec3) : v + ⟨0, 0, 0⟩ = v := by
  simp [Vec3.add_def]

theorem sphereNew_radius (c : Vec3) (radius : ℝ) (material : Material) :
    (Sphere.new c radius material).radius = radius := rfl

theorem sphereNew_material (c : Vec3) (radius : ℝ) (material : Material) :
    (Sphere.new c radius material).material = material := rfl

/-- A static sphere's interpolated center is its constructed center: the
keyframe difference is the zero vector. -/
theorem sphereNew_center (c : Vec3) (radius : ℝ) (material : Material) (t : ℝ) :
    (Sphere.new c radius material).center t = c := by
  unfold Sphere.center Sphere.new
  simp only [Vec3.sub_def]
  rw [show (⟨c.x - c.x, c.y - c.y, c.z - c.z⟩ : Vec3) = ⟨0, 0, 0⟩ by ext <;> simp]
  rw [smul_zero_vec, add_zero_vec]

theorem ecoe_max (x y : ℝ) :
    ((Max.max x y : ℝ) : EReal) = Max.max (x : EReal) (y : EReal) :=
  EReal.coe_strictMono.monotone.map_max

theorem ecoe_min (x y : ℝ) :
    ((Min.min x y : ℝ) : EReal) = Min.min (x : EReal) (y : EReal) :=
  EReal.coe_strictMono.monotone.map_min

theorem if_gt_eq_max (x y : EReal) : (if x > y then x else y) = Max.max y x := by
  rcases le_or_lt x y with h | h
  · rw [if_neg (not_lt.mpr h), max_eq_left h]
  · rw [if_pos h, max_eq_right h.le]

theorem if_lt_eq_min (x y : EReal) : (if x < y then x else y) = Min.min y x := by
  rcases le_or_lt y x with h | h
  · rw [if_neg (not_lt.mpr h), min_eq_left h]
  · rw [if_pos h, min_eq_right h.le]

/-- One axis check of `AABB::hit` passes exactly when the axis slab
interval meets the original `(t_min, t_max)` interval. -/
theorem slabCheck_eq (b : AABB) (r : Ray) (a : Axis) (mn mx : EReal) :
    slabCheck b r a mn mx =
      if Min.min mx ((slabHi b r a : ℝ) : EReal) ≤
          Max.max mn ((slabLo b r a : ℝ) : EReal) then false
      else true := by
  unfold slabCheck slabLo slabHi
  by_cases h : 1 / axisGet a r.direction < 0 <;>
    simp only [h, if_true, if_false, if_gt_eq_max, if_lt_eq_min]

theorem slabCheck_iff (b : AABB) (r : Ray) (a : Axis) (mn mx : EReal) :
    slabCheck b r a mn mx = true ↔
      Max.max mn ((slabLo b r a : ℝ) : EReal) <
        Min.min mx ((slabHi b r a : ℝ) : EReal) := by
  rw [slabCheck_eq]
  split_ifs with h
  · simp only [Bool.false_eq_true, false_iff, not_lt]
    exact h
  · simp only [true_iff]
    exact lt_of_not_le h

/-- `AABB::hit` succeeds exactly when every axis slab interval separately
meets the original `(t_min, t_max)` interval (no narrowing carries across
axes). -/
theorem aabbHit_iff (b : AABB) (r : Ray) (mn mx : EReal) :
    aabbHit b r mn mx = true ↔
      ∀ a : Axis,
        Max.max mn ((slabLo b r a : ℝ) : EReal) <
          Min.min mx ((slabHi b r a : ℝ) : EReal) := by
  unfold aabbHit
  rw [Bool.and_eq_true, Bool.and_eq_true]
  constructor
  · rintro ⟨hx, hy, hz⟩ a
    cases a
    · exact (slabCheck_iff b r .X mn mx).mp hx
    · exact (slabCheck_iff b r .Y mn mx).mp hy
    · exact (slabCheck_iff b r .Z mn mx).mp hz
  · intro h
    exact ⟨(slabCheck_iff b r .X mn mx).mpr (h .X),
      (slabCheck_iff b r .Y mn mx).mpr (h .Y),
      (slabCheck_iff b r .Z mn mx).mpr (h .Z)⟩

theorem boxSub_min_le (hsub : boxSub b b') (a : Axis) :
    axisGet a b'.min ≤ axisGet a b.min := by
  cases a
  · exact hsub.1
  · exact hsub.2.1
  · exact hsub.2.2.1

theorem boxSub_max_le (hsub : boxSub b b') (a : Axis) :
    axisGet a b.max ≤ axisGet a b'.max := by
  cases a
  · exact hsub.2.2.2.1
  · exact hsub.2.2.2.2.1
  · exact hsub.2.2.2.2.2

theorem slabLo_anti (b b' : AABB) (r : Ray) (a : Axis)
    (hd : axisGet a r.direction ≠ 0) (hsub : boxSub b b') :
    slabLo b' r a ≤ slabLo b r a := by
  unfold slabLo
  rcases lt_trichotomy (axisGet a r.direction) 0 with hneg | hzero | hpos
  · have hinv : 1 / axisGet a r.direction < 0 := one_div_neg.mpr hneg
    rw [if_pos hinv, if_pos hinv]
    exact mul_le_mul_of_nonpos_right
      (sub_le_sub_right (boxSub_max_le hsub a) _) hinv.le
  · exact absurd hzero hd
  · have hinv : 0 < 1 / axisGet a r.direction := one_div_pos.mpr hpos
    rw [if_neg (not_lt.mpr hinv.le), if_neg (not_lt.mpr hinv.le)]
    exact mul_le_mul_of_nonneg_right
      (sub_le_sub_right (boxSub_min_le hsub a) _) hinv.le

theorem slabHi_mono (b b' : AABB) (r : Ray) (a : Axis)
    (hd : axisGet a r.direction ≠ 0) (hsub : boxSub b b') :
    slabHi b r a ≤ slabHi b' r a := by
  unfold slabHi
  rcases lt_trichotomy (axisGet a r.direction) 0 with hneg | hzero | hpos
  · have hinv : 1 / axisGet a r.direction < 0 := one_div_neg.mpr hneg
    rw [if_pos hinv, if_pos hinv]
    exact mul_le_mul_of_nonpos_right
      (sub_le_sub_right (boxSub_min_le hsub a) _) hinv.le
  · exact absurd hzero hd
  · have hinv : 0 < 1 / axisGet a r.direction := one_div_pos.mpr hpos
    rw [if_neg (not_lt.mpr hinv.le), if_neg (not_lt.mpr hinv.le)]
    exact mul_le_mul_of_nonneg_right
      (sub_le_sub_right (boxSub_max_le hsub a) _) hinv.le

/-- Enlarging a box can only turn a slab-test miss into a hit, never the
reverse. -/
theorem aabbHit_mono (b b' : AABB) (r : Ray) (mn mx : EReal)
    (hd : ∀ a : Axis, axisGet a r.direction ≠ 0) (hsub : boxSub b b')
    (h : aabbHit b r mn mx = true) : aabbHit b' r mn mx = true := by
  rw [aabbHit_iff] at h ⊢
  intro a
  have hlo : Max.max mn ((slabLo b' r a : ℝ) : EReal) ≤
      Max.max mn ((slabLo b r a : ℝ) : EReal) :=
    max_le_max le_rfl (EReal.coe_le_coe_iff.mpr (slabLo_anti b b' r a (hd a) hsub))
  have hhi : Min.min mx ((slabHi b r a : ℝ) : EReal) ≤
      Min.min mx ((slabHi b' r a : ℝ) : EReal) :=
    min_le_min le_rfl (EReal.coe_le_coe_iff.mpr (slabHi_mono b b' r a (hd a) hsub))
  exact lt_of_le_of_lt hlo (lt_of_lt_of_le (h a) hhi)

/-- Claim C2 (code bug): the claim describes the reference slab test that
narrows the running `[t_min, t_max]` across axes, but in `src/geom.rs` the
`let tmin`/`let tmax` rebindings of `AABB::hit` are scoped to a single loop
iteration, so every axis is tested against the original bounds.  At the
input below each per-axis slab interval (`[0,1]`, `[0,1]`, `[10,11]`)
overlaps `(0, 20)` while the three slabs have empty mutual intersection:
the claimed narrowing algorithm returns `false` there, but the code
returns `true`. -/
theorem claim_C2 :
    aabbHit ⟨⟨0, 0, 0⟩, ⟨1, 1, 1⟩⟩ ⟨⟨0, 0, -10⟩, ⟨1, 1, 1⟩, 0⟩
        ((0 : ℝ) : EReal) ((20 : ℝ) : EReal) = true ∧
      ¬ ∃ t : ℝ, ∀ a : Axis,
        slabLo ⟨⟨0, 0, 0⟩, ⟨1, 1, 1⟩⟩ ⟨⟨0, 0, -10⟩, ⟨1, 1, 1⟩, 0⟩ a ≤ t ∧
          t ≤ slabHi ⟨⟨0, 0, 0⟩, ⟨1, 1, 1⟩⟩ ⟨⟨0, 0, -10⟩, ⟨1, 1, 1⟩, 0⟩ a := by
  have hxlo : slabLo ⟨⟨0, 0, 0⟩, ⟨1, 1, 1⟩⟩ ⟨⟨0, 0, -10⟩, ⟨1, 1, 1⟩, 0⟩ .X = 0 := by
    norm_num [slabLo, axisGet]
  have hxhi : slabHi ⟨⟨0, 0, 0⟩, ⟨1, 1, 1⟩⟩ ⟨⟨0, 0, -10⟩, ⟨1, 1, 1⟩, 0⟩ .X = 1 := by
    norm_num [slabHi, axisGet]
  have hylo : slabLo ⟨⟨0, 0, 0⟩, ⟨1, 1, 1⟩⟩ ⟨⟨0, 0, -10⟩, ⟨1, 1, 1⟩, 0⟩ .Y = 0 := by
    norm_num [slabLo, axisGet]
  have hyhi : slabHi ⟨⟨0, 0, 0⟩, ⟨1, 1, 1⟩⟩ ⟨⟨0, 0, -10⟩, ⟨1, 1, 1⟩, 0⟩ .Y = 1 := by
    norm_num [slabHi, axisGet]
  have hzlo : slabLo ⟨⟨0, 0, 0⟩, ⟨1, 1, 1⟩⟩ ⟨⟨0, 0, -10⟩, ⟨1, 1, 1⟩, 0⟩ .Z = 10 := by
    norm_num [slabLo, axisGet]
  have hzhi : slabHi ⟨⟨0, 0, 0⟩, ⟨1, 1, 1⟩⟩ ⟨⟨0, 0, -10⟩, ⟨1, 1, 1⟩, 0⟩ .Z = 11 := by
    norm_num [slabHi, axisGet]
  constructor
  · rw [aabbHit_iff]
    intro a
    cases a
    · rw [hxlo, hxhi, ← ecoe_max, ← ecoe_min, EReal.coe_lt_coe_iff]
      norm_num
    · rw [hylo, hyhi, ← ecoe_max, ← ecoe_min, EReal.coe_lt_coe_iff]
      norm_num
    · rw [hzlo, hzhi, ← ecoe_max, ← ecoe_min, EReal.coe_lt_coe_iff]
      norm_num
  · rintro ⟨t, ht⟩
    have h1 := (ht .X).2
    have h2 := (ht .Z).1
    rw [hxhi] at h1
    rw [hzlo] at h2
    linarith

/-- `Sphere::hit` written in terms of its named intermediate quantities. -/
theorem sphereHit_eq (s : Sphere) (r : Ray) (mn mx : EReal) :
    sphereHit s r mn mx =
      if sphereDisc s r < 0 then none
      else
        if ((sphereT1 s r : ℝ) : EReal) < mx ∧ ((sphereT1 s r : ℝ) : EReal) > mn then
          some (hitNew (r.at' (sphereT1 s r))
            ((r.at' (sphereT1 s r) - s.center r.time).divs s.radius) (sphereT1 s r) r
            s.material)
        else
          if ((sphereT2 s r : ℝ) : EReal) < mx ∧ ((sphereT2 s r : ℝ) : EReal) > mn then
            some (hitNew (r.at' (sphereT2 s r))
              ((r.at' (sphereT2 s r) - s.center r.time).divs s.radius) (sphereT2 s r) r
              s.material)
          else none := rfl

/-- `CanHit for Sphere` of `src/data.rs` written in terms of its named
intermediate quantities. -/
theorem dataSphereHit_eq (s : DataSphere) (r : DRay) (mn mx : EReal) :
    dataSphereHit s r mn mx =
      if dataDisc s r > 0 then
        ((if ((dataT2 s r : ℝ) : EReal) < mx ∧ ((dataT2 s r : ℝ) : EReal) > mn then
            some (dHitNew (r.at' (dataT2 s r)) (dataT2 s r) r
              ((r.at' (dataT2 s r) - s.center).divs s.radius))
          else none).or
          (if ((dataT1 s r : ℝ) : EReal) < mx ∧ ((dataT1 s r : ℝ) : EReal) > mn then
            some (dHitNew (r.at' (dataT1 s r)) (dataT1 s r) r
              ((r.at' (dataT1 s r) - s.center).divs s.radius))
          else none))
      else none := rfl

theorem dHitNew_t (p : Vec3) (t : ℝ) (r : DRay) (n : Vec3) :
    (dHitNew p t r n).t = t := by
  unfold dHitNew
  split <;> rfl

/-- Claim C3 (amended): for a ray with nonzero direction and non-negative
discriminant, `Sphere::hit` of `src/geom.rs` tests the smaller root first,
then the larger, returning the first root strictly inside `(t_min, t_max)`
with outward normal `(hit_point - center)/radius` passed to `Hit::new`;
the `src/data.rs` `CanHit` implementation instead returns the larger root
whenever both roots are in range. -/
theorem claim_C3 (s : Sphere) (r : Ray) (mn mx : EReal)
    (ha : 0 < sphereA r) (hdisc : 0 ≤ sphereDisc s r) :
    (sphereT1 s r ≤ sphereT2 s r) ∧
      ((mn < ((sphereT1 s r : ℝ) : EReal) ∧ ((sphereT1 s r : ℝ) : EReal) < mx) →
        sphereHit s r mn mx =
          some (hitNew (r.at' (sphereT1 s r))
            ((r.at' (sphereT1 s r) - s.center r.time).divs s.radius) (sphereT1 s r) r
            s.material)) ∧
      ((¬ (mn < ((sphereT1 s r : ℝ) : EReal) ∧ ((sphereT1 s r : ℝ) : EReal) < mx)) →
        (mn < ((sphereT2 s r : ℝ) : EReal) ∧ ((sphereT2 s r : ℝ) : EReal) < mx) →
        sphereHit s r mn mx =
          some (hitNew (r.at' (sphereT2 s r))
            ((r.at' (sphereT2 s r) - s.center r.time).divs s.radius) (sphereT2 s r) r
            s.material)) ∧
      ((¬ (mn < ((sphereT1 s r : ℝ) : EReal) ∧ ((sphereT1 s r : ℝ) : EReal) < mx)) →
        (¬ (mn < ((sphereT2 s r : ℝ) : EReal) ∧ ((sphereT2 s r : ℝ) : EReal) < mx)) →
        sphereHit s r mn mx = none) ∧
      ∀ (ds : DataSphere) (dr : DRay) (dmn dmx : EReal),
        0 < dataDisc ds dr →
        (dmn < ((dataT1 ds dr : ℝ) : EReal) ∧ ((dataT1 ds dr : ℝ) : EReal) < dmx) →
        (dmn < ((dataT2 ds dr : ℝ) : EReal) ∧ ((dataT2 ds dr : ℝ) : EReal) < dmx) →
        (dataSphereHit ds dr dmn dmx).map DHit.t = some (dataT2 ds dr) := by
  refine ⟨?_, ?_, ?_, ?_, ?_⟩
  · unfold sphereT1 sphereT2
    refine (div_le_div_iff_of_pos_right ha).mpr ?_
    have := Real.sqrt_nonneg (sphereDisc s r)
    linarith
  · intro hin
    rw [sphereHit_eq, if_neg (not_lt.mpr hdisc), if_pos ⟨hin.2, hin.1⟩]
  · intro hout hin
    rw [sphereHit_eq, if_neg (not_lt.mpr hdisc)]
    rw [if_neg ?_, if_pos ⟨hin.2, hin.1⟩]
    intro hc
    exact hout ⟨hc.2, hc.1⟩
  · intro hout1 hout2
    rw [sphereHit_eq, if_neg (not_lt.mpr hdisc)]
    rw [if_neg ?_, if_neg ?_]
    · intro hc
      exact hout2 ⟨hc.2, hc.1⟩
    · intro hc
      exact hout1 ⟨hc.2, hc.1⟩
  · intro ds dr dmn dmx hdpos hin1 hin2
    rw [dataSphereHit_eq, if_pos hdpos, if_pos ⟨hin2.2, hin2.1⟩]
    simp [Option.or, dHitNew_t]

/-- Counterexample for C3 as frozen: for the `src/data.rs` sphere
implementation, with both roots in `(0, 10)` the returned `t` is the larger
root `3`, not the smaller root `1`. -/
theorem claim_C3_counterexample :
    (dataSphereHit ⟨⟨0, 0, 0⟩, 1⟩ ⟨⟨-2, 0, 0⟩, ⟨1, 0, 0⟩⟩ ((0 : ℝ) : EReal)
        ((10 : ℝ) : EReal)).map DHit.t = some 3 ∧
      dataT1 ⟨⟨0, 0, 0⟩, 1⟩ ⟨⟨-2, 0, 0⟩, ⟨1, 0, 0⟩⟩ = 1 ∧ (3 : ℝ) ≠ 1 := by
  have hdisc : dataDisc ⟨⟨0, 0, 0⟩, 1⟩ ⟨⟨-2, 0, 0⟩, ⟨1, 0, 0⟩⟩ = 1 := by
    norm_num [dataDisc, Vec3.sub_def, Vec3.dot, Vec3.lengthSquared]
  have ht1 : dataT1 ⟨⟨0, 0, 0⟩, 1⟩ ⟨⟨-2, 0, 0⟩, ⟨1, 0, 0⟩⟩ = 1 := by
    norm_num [dataT1, hdisc, Real.sqrt_one, Vec3.sub_def, Vec3.dot, Vec3.lengthSquared]
  have ht2 : dataT2 ⟨⟨0, 0, 0⟩, 1⟩ ⟨⟨-2, 0, 0⟩, ⟨1, 0, 0⟩⟩ = 3 := by
    norm_num [dataT2, hdisc, Real.sqrt_one, Vec3.sub_def, Vec3.dot, Vec3.lengthSquared]
  refine ⟨?_, ht1, by norm_num⟩
  rw [dataSphereHit_eq, if_pos (by rw [hdisc]; norm_num), ht1, ht2]
  rw [if_pos ⟨by norm_num [EReal.coe_lt_coe_iff], by norm_num [EReal.coe_lt_coe_iff]⟩]
  simp [Option.or, dHitNew_t]

/-- Witness for C3 at a concrete static sphere and ray: the smaller root
`t = 1` is returned. -/
theorem claim_C3_witness :
    sphereHit (Sphere.new ⟨0, 0, 0⟩ 1 (.lambertian ⟨1, 1, 1⟩))
        ⟨⟨-2, 0, 0⟩, ⟨1, 0, 0⟩, 0⟩ ((0 : ℝ) : EReal) ((10 : ℝ) : EReal) =
      some (hitNew
        (Ray.at' ⟨⟨-2, 0, 0⟩, ⟨1, 0, 0⟩, 0⟩
          (sphereT1 (Sphere.new ⟨0, 0, 0⟩ 1 (.lambertian ⟨1, 1, 1⟩))
            ⟨⟨-2, 0, 0⟩, ⟨1, 0, 0⟩, 0⟩))
        ((Ray.at' ⟨⟨-2, 0, 0⟩, ⟨1, 0, 0⟩, 0⟩
            (sphereT1 (Sphere.new ⟨0, 0, 0⟩ 1 (.lambertian ⟨1, 1, 1⟩))
              ⟨⟨-2, 0, 0⟩, ⟨1, 0, 0⟩, 0⟩) -
          (Sphere.new ⟨0, 0, 0⟩ 1 (.lambertian ⟨1, 1, 1⟩)).center 0).divs 1)
        (sphereT1 (Sphere.new ⟨0, 0, 0⟩ 1 (.lambertian ⟨1, 1, 1⟩))
          ⟨⟨-2, 0, 0⟩, ⟨1, 0, 0⟩, 0⟩)
        ⟨⟨-2, 0, 0⟩, ⟨1, 0, 0⟩, 0⟩ (.lambertian ⟨1, 1, 1⟩)) := by
  have hdisc : sphereDisc (Sphere.new ⟨0, 0, 0⟩ 1 (.lambertian ⟨1, 1, 1⟩))
      ⟨⟨-2, 0, 0⟩, ⟨1, 0, 0⟩, 0⟩ = 1 := by
    norm_num [sphereDisc, sphereHalfB, sphereOC, sphereA, sphereC, sphereNew_center,
      sphereNew_radius, Vec3.sub_def, Vec3.dot, Vec3.lengthSquared]
  have ht1 : sphereT1 (Sphere.new ⟨0, 0, 0⟩ 1 (.lambertian ⟨1, 1, 1⟩))
      ⟨⟨-2, 0, 0⟩, ⟨1, 0, 0⟩, 0⟩ = 1 := by
    norm_num [sphereT1, hdisc, Real.sqrt_one, sphereHalfB, sphereOC, sphereA,
      sphereNew_center, sphereNew_radius, Vec3.sub_def, Vec3.dot, Vec3.lengthSquared]
  exact (claim_C3 (Sphere.new ⟨0, 0, 0⟩ 1 (.lambertian ⟨1, 1, 1⟩))
      ⟨⟨-2, 0, 0⟩, ⟨1, 0, 0⟩, 0⟩ ((0 : ℝ) : EReal) ((10 : ℝ) : EReal)
      (by norm_num [sphereA, Vec3.lengthSquared])
      (by rw [hdisc]; norm_num)).2.1
    ⟨by rw [ht1]; exact_mod_cast (by norm_num : (0 : ℝ) < 1),
     by rw [ht1]; exact_mod_cast (by norm_num : (1 : ℝ) < 10)⟩

/-- Claim C6 (amended): in the renderer's `ray_color` (`src/draw.rs`; the
`src/main.rs` trace module has the same miss branch), for every positive
depth and every ray that misses the scene the result is the lerp
`(1-t)*white + t*(0.5,0.7,1.0)` with `t = 0.5*(unit_direction.y + 1)`;
the legacy `src/tracer.rs` helper instead uses `t = 0.5*unit_y + 1`. -/
theorem claim_C6 (rng : ℕ → Vec3 × ℝ) (ray : Ray) (world : Hittable) (d : ℕ)
    (hmiss : hitH world ray (((0.001 : ℝ)) : EReal) ⊤ = none) :
    (rayColor rng ray world (d + 1) =
      ⟨(1 - 0.5 * (ray.direction.unit.y + 1)) • (⟨1, 1, 1⟩ : Vec3) +
        (0.5 * (ray.direction.unit.y + 1)) • (⟨0.5, 0.7, 1.0⟩ : Vec3)⟩) ∧
      (∀ (rngm : ℕ → Vec3),
        rayColorMain rngm ray world (d + 1) =
          ⟨(1 - 0.5 * (ray.direction.unit.y + 1)) • (⟨1, 1, 1⟩ : Vec3) +
            (0.5 * (ray.direction.unit.y + 1)) • (⟨0.5, 0.7, 1.0⟩ : Vec3)⟩) ∧
      ∀ dr : DRay,
        tracerRayColor dr =
          (1 - (0.5 * dr.direction.unit.y + 1)) • UNIT +
            (0.5 * dr.direction.unit.y + 1) • (⟨0.5, 0.7, 1.0⟩ : Vec3) := by
  refine ⟨?_, ?_, fun dr => rfl⟩
  · simp only [rayColor, hmiss]
  · intro rngm
    simp only [rayColorMain, hmiss]

/-- Counterexample for C6 as frozen: at depth 0 a scene-missing ray yields
black, not the background gradient. -/
theorem claim_C6_counterexample :
    hitH .ephemeral ⟨⟨0, 0, 0⟩, ⟨0, 0, -1⟩, 0⟩ (((0.001 : ℝ)) : EReal) ⊤ = none ∧
      rayColor (fun _ => (Vec3.zero, 0)) ⟨⟨0, 0, 0⟩, ⟨0, 0, -1⟩, 0⟩ .ephemeral 0 ≠
        ⟨(1 - 0.5 * ((Vec3.unit ⟨0, 0, -1⟩).y + 1)) • (⟨1, 1, 1⟩ : Vec3) +
          (0.5 * ((Vec3.unit ⟨0, 0, -1⟩).y + 1)) • (⟨0.5, 0.7, 1.0⟩ : Vec3)⟩ := by
  refine ⟨rfl, ?_⟩
  intro h
  have hv := congrArg (fun p => p.v.x) h
  norm_num [rayColor, Vec3.unit, Vec3.length, Vec3.lengthSquared, Vec3.divs,
    Vec3.zero, Vec3.smul_def, Vec3.add_def, Real.sqrt_one] at hv

/-- Witness for C6 at a concrete miss ray against the empty scene. -/
theorem claim_C6_witness :
    rayColor (fun _ => (Vec3.zero, 0)) ⟨⟨0, 0, 0⟩, ⟨0, 0, -1⟩, 0⟩ .ephemeral 1 =
      ⟨(1 - 0.5 * ((Ray.mk ⟨0, 0, 0⟩ ⟨0, 0, -1⟩ 0).direction.unit.y + 1)) •
          (⟨1, 1, 1⟩ : Vec3) +
        (0.5 * ((Ray.mk ⟨0, 0, 0⟩ ⟨0, 0, -1⟩ 0).direction.unit.y + 1)) •
          (⟨0.5, 0.7, 1.0⟩ : Vec3)⟩ :=
  (claim_C6 (fun _ => (Vec3.zero, 0)) ⟨⟨0, 0, 0⟩, ⟨0, 0, -1⟩, 0⟩ .ephemeral 0 rfl).1

theorem invAt_none_nil (mn mx : EReal) : InvAt mn mx none ([] : List ℝ) :=
  ⟨fun _ hc => Option.noConfusion hc, fun _ u hu => absurd hu (List.not_mem_nil u)⟩

theorem invAt_congr {mn mx : EReal} {cur : Option Hit} {ts ts' : List ℝ}
    (hmem : ∀ u : ℝ, u ∈ ts ↔ u ∈ ts') (h : InvAt mn mx cur ts) :
    InvAt mn mx cur ts' := by
  constructor
  · intro hh hc
    obtain ⟨h1, h2, h3, h4⟩ := h.1 hh hc
    exact ⟨(hmem _).1 h1, h2, h3, fun u hu h5 h6 => h4 u ((hmem u).2 hu) h5 h6⟩
  · intro hc u hu
    exact h.2 hc u ((hmem u).2 hu)

theorem repH_congr {f : EReal → EReal → Option Hit} {ts ts' : List ℝ}
    (hmem : ∀ u : ℝ, u ∈ ts ↔ u ∈ ts') (h : RepH f ts) : RepH f ts' :=
  fun mn mx => invAt_congr hmem (h mn mx)

/-- The narrowing-and-preferring update of `Collection::hit` (also performed
between the two children of `BVHNode::hit`) preserves closest-hit
semantics, extending the candidate set. -/
theorem invAt_step {mn mx : EReal} (f : EReal → EReal → Option Hit)
    (ts₂ : List ℝ) {cur : Option Hit} {ts₁ : List ℝ}
    (hf : RepH f ts₂) (hc : InvAt mn mx cur ts₁) :
    InvAt mn mx
      ((f mn (cur.elim mx (fun h => ((h.t : ℝ) : EReal)))).or cur) (ts₁ ++ ts₂) := by
  cases cur with
  | none =>
      have hnone := hc.2 rfl
      have hstep := hf mn mx
      cases hval : f mn mx with
      | none =>
          have heq : (f mn (Option.elim (none : Option Hit) mx (fun h => ((h.t : ℝ) : EReal)))).or none =
              none := by
            simp only [Option.elim]
            rw [hval]
            rfl
          rw [heq]
          refine ⟨fun h hc' => Option.noConfusion hc', fun _ u hu => ?_⟩
          rcases List.mem_append.mp hu with h1 | h2
          · exact hnone u h1
          · exact (hstep.2 hval) u h2
      | some nh =>
          have heq : (f mn (Option.elim (none : Option Hit) mx (fun h => ((h.t : ℝ) : EReal)))).or none =
              some nh := by
            simp only [Option.elim]
            rw [hval]
            rfl
          rw [heq]
          obtain ⟨hmem, hlow, hhigh, hmin⟩ := hstep.1 nh hval
          refine ⟨fun h hc' => ?_, fun hc' => Option.noConfusion hc'⟩
          cases Option.some.inj hc'
          refine ⟨List.mem_append.mpr (Or.inr hmem), hlow, hhigh, fun u hu h5 h6 => ?_⟩
          rcases List.mem_append.mp hu with h1 | h2
          · exact ((hnone u h1) ⟨h5, h6⟩).elim
          · exact hmin u h2 h5 h6
  | some ch =>
      obtain ⟨hchmem, hchlow, hchhigh, hchmin⟩ := hc.1 ch rfl
      have hstep := hf mn ((ch.t : ℝ) : EReal)
      cases hval : f mn ((ch.t : ℝ) : EReal) with
      | none =>
          have heq : (f mn (Option.elim (some ch) mx (fun h => ((h.t : ℝ) : EReal)))).or
              (some ch) = some ch := by
            simp only [Option.elim]
            rw [hval]
            rfl
          rw [heq]
          refine ⟨fun h hc' => ?_, fun hc' => Option.noConfusion hc'⟩
          cases Option.some.inj hc'
          refine ⟨List.mem_append.mpr (Or.inl hchmem), hchlow, hchhigh,
            fun u hu h5 h6 => ?_⟩
          rcases List.mem_append.mp hu with h1 | h2
          · exact hchmin u h1 h5 h6
          · have hno := (hstep.2 hval) u h2
            by_contra hlt
            exact hno ⟨h5, EReal.coe_lt_coe_iff.mpr (lt_of_not_le hlt)⟩
      | some nh =>
          have heq : (f mn (Option.elim (some ch) mx (fun h => ((h.t : ℝ) : EReal)))).or
              (some ch) = some nh := by
            simp only [Option.elim]
            rw [hval]
            rfl
          rw [heq]
          obtain ⟨hnmem, hnlow, hnhigh, hnmin⟩ := hstep.1 nh hval
          have hnlt : nh.t < ch.t := EReal.coe_lt_coe_iff.mp hnhigh
          refine ⟨fun h hc' => ?_, fun hc' => Option.noConfusion hc'⟩
          cases Option.some.inj hc'
          refine ⟨List.mem_append.mpr (Or.inr hnmem), hnlow,
            lt_trans hnhigh hchhigh, fun u hu h5 h6 => ?_⟩
          rcases List.mem_append.mp hu with h1 | h2
          · exact le_trans hnlt.le (hchmin u h1 h5 h6)
          · by_cases hu2 : ((u : ℝ) : EReal) < ((ch.t : ℝ) : EReal)
            · exact hnmin u h2 h5 hu2
            · exact le_trans hnlt.le (EReal.coe_le_coe_iff.mp (not_lt.mp hu2))

theorem hitNew_t (p n : Vec3) (t : ℝ) (r : Ray) (m : Material) :
    (hitNew p n t r m).t = t := by
  unfold hitNew
  split <;> rfl

theorem sphereT1_le_T2 (s : Sphere) (r : Ray) (ha : 0 < sphereA r)
    (hd : 0 ≤ sphereDisc s r) : sphereT1 s r ≤ sphereT2 s r := by
  unfold sphereT1 sphereT2
  refine (div_le_div_iff_of_pos_right ha).mpr ?_
  have := Real.sqrt_nonneg (sphereDisc s r)
  linarith

/-- `Sphere::hit` realizes closest-hit semantics over its two quadratic
roots. -/
theorem sphereHit_repH (s : Sphere) (r : Ray) (ha : 0 < sphereA r) :
    RepH (sphereHit s r) (sphereCands s r) := by
  intro mn mx
  by_cases hd : sphereDisc s r < 0
  · rw [sphereHit_eq, if_pos hd]
    unfold sphereCands
    rw [if_neg (not_le.mpr hd)]
    exact invAt_none_nil mn mx
  · have hd' : 0 ≤ sphereDisc s r := not_lt.mp hd
    have ht12 := sphereT1_le_T2 s r ha hd'
    rw [sphereHit_eq, if_neg hd]
    unfold sphereCands
    rw [if_pos hd']
    by_cases h1 : ((sphereT1 s r : ℝ) : EReal) < mx ∧ ((sphereT1 s r : ℝ) : EReal) > mn
    · rw [if_pos h1]
      refine ⟨fun h hc => ?_, fun hc => Option.noConfusion hc⟩
      cases Option.some.inj hc
      simp only [hitNew_t]
      refine ⟨List.mem_cons_self _ _, h1.2, h1.1, fun u hu h5 h6 => ?_⟩
      rcases List.mem_cons.mp hu with h7 | h7
      · exact le_of_eq h7.symm
      · rw [List.mem_singleton.mp h7]
        exact ht12
    · rw [if_neg h1]
      by_cases h2 : ((sphereT2 s r : ℝ) : EReal) < mx ∧ ((sphereT2 s r : ℝ) : EReal) > mn
      · rw [if_pos h2]
        refine ⟨fun h hc => ?_, fun hc => Option.noConfusion hc⟩
        cases Option.some.inj hc
        simp only [hitNew_t]
        refine ⟨List.mem_cons.mpr (Or.inr (List.mem_singleton.mpr rfl)), h2.2, h2.1,
          fun u hu h5 h6 => ?_⟩
        rcases List.mem_cons.mp hu with h7 | h7
        · exact absurd ⟨h7 ▸ h6, h7 ▸ h5⟩ h1
        · rw [List.mem_singleton.mp h7]
      · rw [if_neg h2]
        refine ⟨fun h hc => Option.noConfusion hc, fun _ u hu => ?_⟩
        intro hrange
        rcases List.mem_cons.mp hu with h7 | h7
        · exact h1 ⟨h7 ▸ hrange.2, h7 ▸ hrange.1⟩
        · rw [List.mem_singleton.mp h7] at hrange
          exact h2 ⟨hrange.2, hrange.1⟩

/-- `BVHNode::hit` realizes closest-hit semantics over the union of its
children's candidates, provided the cached box covers them. -/
theorem node_repH (left right : Hittable) (b : AABB) (tsl tsr : List ℝ) (r : Ray)
    (hl : RepH (hitH left r) tsl) (hr : RepH (hitH right r) tsr)
    (hcov : Covers r b (tsl ++ tsr)) :
    RepH (hitH (.bvhnode left right (some b)) r) (tsl ++ tsr) := by
  intro mn mx
  simp only [hitH]
  by_cases hbox : aabbHit b r mn mx = true
  · rw [if_pos hbox]
    exact invAt_step (hitH right r) tsr hr (hl mn mx)
  · rw [if_neg hbox]
    refine ⟨fun h hc => Option.noConfusion hc, fun _ u hu => ?_⟩
    intro hrange
    exact hbox (hcov mn mx u hu hrange.1 hrange.2)

theorem collection_foldl_invAt (r : Ray) (mn mx : EReal) :
    ∀ (hs : List Hittable) (ts0 : List ℝ) (cur : Option Hit),
      (∀ h ∈ hs, RepH (hitH h r) (candH r h)) →
      InvAt mn mx cur ts0 →
      InvAt mn mx
        (hs.foldl (fun currentHit hittable =>
          (hitH hittable r mn
            (currentHit.elim mx (fun h => ((h.t : ℝ) : EReal)))).or currentHit) cur)
        (ts0 ++ (hs.map (candH r)).flatten)
  | [], ts0, cur, _, hcur => by
      simpa only [List.foldl_nil, List.map_nil, List.flatten_nil, List.append_nil]
        using hcur
  | h :: hs, ts0, cur, hall, hcur => by
      rw [List.foldl_cons, List.map_cons, List.flatten_cons, ← List.append_assoc]
      exact collection_foldl_invAt r mn mx hs (ts0 ++ candH r h) _
        (fun h' hh' => hall h' (List.mem_cons_of_mem _ hh'))
        (invAt_step (hitH h r) (candH r h) (hall h (List.mem_cons_self _ _)) hcur)

/-- `Collection::hit` realizes closest-hit semantics over the union of its
children's candidates. -/
theorem collection_repH (r : Ray) (hs : List Hittable)
    (hall : ∀ h ∈ hs, RepH (hitH h r) (candH r h)) :
    RepH (collectionHit hs r) ((hs.map (candH r)).flatten) := by
  intro mn mx
  have := collection_foldl_invAt r mn mx hs [] none hall (invAt_none_nil mn mx)
  simpa only [List.nil_append] using this

/-- Two closest-hit queries over membership-equal candidate sets agree on
the returned `t`. -/
theorem repH_t_eq {f g : EReal → EReal → Option Hit} {ts ts' : List ℝ}
    (hf : RepH f ts) (hg : RepH g ts') (hmem : ∀ u : ℝ, u ∈ ts ↔ u ∈ ts')
    (mn mx : EReal) : (f mn mx).map Hit.t = (g mn mx).map Hit.t := by
  have hf' := hf mn mx
  have hg' := hg mn mx
  cases hfv : f mn mx with
  | none =>
      rw [hfv] at hf'
      cases hgv : g mn mx with
      | none => rfl
      | some h =>
          rw [hgv] at hg'
          obtain ⟨hm, h2, h3, _⟩ := hg'.1 h rfl
          exact ((hf'.2 rfl h.t ((hmem _).2 hm)) ⟨h2, h3⟩).elim
  | some h =>
      rw [hfv] at hf'
      obtain ⟨hm, h2, h3, hmin⟩ := hf'.1 h rfl
      cases hgv : g mn mx with
      | none =>
          rw [hgv] at hg'
          exact ((hg'.2 rfl h.t ((hmem _).1 hm)) ⟨h2, h3⟩).elim
      | some h' =>
          rw [hgv] at hg'
          obtain ⟨hm', h2', h3', hmin'⟩ := hg'.1 h' rfl
          simp only [Option.map_some']
          congr 1
          exact le_antisymm (hmin h'.t ((hmem _).2 hm') h2' h3')
            (hmin' h.t ((hmem _).1 hm) h2 h3)

theorem sphereA_pos (r : Ray) (hx : axisGet .X r.direction ≠ 0) :
    0 < sphereA r := by
  unfold sphereA Vec3.lengthSquared
  simp only [axisGet] at hx
  have h1 := pow_two_pos_of_ne_zero hx
  nlinarith [sq_nonneg r.direction.y, sq_nonneg r.direction.z]

theorem quad_root_eval (a b c R t : ℝ) (ha : a ≠ 0) (hR : R ^ 2 = b ^ 2 - a * c)
    (ht : t = (-b - R) / a ∨ t = (-b + R) / a) :
    a * t ^ 2 + 2 * b * t + c = 0 := by
  rcases ht with rfl | rfl <;>
    (field_simp; linear_combination a ^ 2 * hR)

/-- Every candidate parameter of a sphere is a root of its hit quadratic. -/
theorem sphereCands_root (s : Sphere) (r : Ray) (u : ℝ) (ha : 0 < sphereA r)
    (hu : u ∈ sphereCands s r) :
    sphereA r * u ^ 2 + 2 * sphereHalfB s r * u + sphereC s r = 0 := by
  unfold sphereCands at hu
  by_cases hd : 0 ≤ sphereDisc s r
  · rw [if_pos hd] at hu
    have hR : Real.sqrt (sphereDisc s r) ^ 2 =
        sphereHalfB s r ^ 2 - sphereA r * sphereC s r := by
      rw [Real.sq_sqrt hd]
      unfold sphereDisc
      ring
    refine quad_root_eval _ _ _ _ _ (ne_of_gt ha) hR ?_
    rcases List.mem_cons.mp hu with h | h
    · exact Or.inl (h.trans rfl)
    · exact Or.inr ((List.mem_singleton.mp h).trans rfl)
  · rw [if_neg hd] at hu
    exact absurd hu (List.not_mem_nil u)

theorem axisGet_sub (a : Axis) (v w : Vec3) :
    axisGet a (v - w) = axisGet a v - axisGet a w := by
  cases a <;> rfl

theorem axisGet_at' (a : Axis) (r : Ray) (u : ℝ) :
    axisGet a (r.at' u) = axisGet a r.origin + u * axisGet a r.direction := by
  cases a <;> rfl

/-- A root of the hit quadratic parameterizes a point at distance `radius`
from the interpolated center. -/
theorem root_point_dist (s : Sphere) (r : Ray) (u : ℝ)
    (hroot : sphereA r * u ^ 2 + 2 * sphereHalfB s r * u + sphereC s r = 0) :
    (r.at' u - s.center r.time).lengthSquared = s.radius * s.radius := by
  unfold sphereA sphereHalfB sphereC sphereOC at hroot
  unfold Ray.at'
  simp only [Vec3.lengthSquared, Vec3.dot, Vec3.sub_def, Vec3.add_def,
    Vec3.smul_def] at hroot ⊢
  linear_combination hroot

/-- Per-axis slab membership of a point on the ray inside the box. -/
theorem slab_bounds_of_point (b : AABB) (r : Ray) (a : Axis) (u : ℝ)
    (hd : axisGet a r.direction ≠ 0)
    (hlo : axisGet a b.min ≤ axisGet a r.origin + u * axisGet a r.direction)
    (hhi : axisGet a r.origin + u * axisGet a r.direction ≤ axisGet a b.max) :
    slabLo b r a ≤ u ∧ u ≤ slabHi b r a := by
  simp only [slabLo, slabHi]
  rcases lt_trichotomy (axisGet a r.direction) 0 with hneg | h0 | hpos
  · have hinv : 1 / axisGet a r.direction < 0 := one_div_neg.mpr hneg
    simp only [if_pos hinv]
    constructor
    · rw [mul_one_div, div_le_iff_of_neg hneg]
      linarith
    · rw [mul_one_div, le_div_iff_of_neg hneg]
      linarith
  · exact absurd h0 hd
  · have hinv : 0 < 1 / axisGet a r.direction := one_div_pos.mpr hpos
    simp only [if_neg (not_lt.mpr hinv.le)]
    constructor
    · rw [mul_one_div, div_le_iff hpos]
      linarith
    · rw [mul_one_div, le_div_iff hpos]
      linarith

theorem slabLo_lt_slabHi (b : AABB) (r : Ray) (a : Axis)
    (hd : axisGet a r.direction ≠ 0)
    (hbox : axisGet a b.min < axisGet a b.max) :
    slabLo b r a < slabHi b r a := by
  simp only [slabLo, slabHi]
  rcases lt_trichotomy (axisGet a r.direction) 0 with hneg | h0 | hpos
  · have hinv : 1 / axisGet a r.direction < 0 := one_div_neg.mpr hneg
    simp only [if_pos hinv]
    exact mul_lt_mul_of_neg_right (sub_lt_sub_right hbox _) hinv
  · exact absurd h0 hd
  · have hinv : 0 < 1 / axisGet a r.direction := one_div_pos.mpr hpos
    simp only [if_neg (not_lt.mpr hinv.le)]
    exact mul_lt_mul_of_pos_right (sub_lt_sub_right hbox _) hinv

theorem sphereBox_min (s : Sphere) (t0 t1 : ℝ) (a : Axis) :
    axisGet a (sphereBoundingBox s t0 t1).min =
      Min.min (axisGet a (s.center t0)) (axisGet a (s.center t1)) - s.radius := by
  cases a <;>
    simp [sphereBoundingBox, surroundingBox, axisGet, Vec3.sub_def, Vec3.add_def,
      min_sub_sub_right]

theorem sphereBox_max (s : Sphere) (t0 t1 : ℝ) (a : Axis) :
    axisGet a (sphereBoundingBox s t0 t1).max =
      Max.max (axisGet a (s.center t0)) (axisGet a (s.center t1)) + s.radius := by
  cases a <;>
    simp [sphereBoundingBox, surroundingBox, axisGet, Vec3.sub_def, Vec3.add_def,
      max_add_add_right]

/-- The sphere's window bounding box slab test reports a hit on every
interval strictly containing a candidate root. -/
theorem sphere_covers (s : Sphere) (r : Ray) (t0 t1 : ℝ)
    (hd : ∀ a : Axis, axisGet a r.direction ≠ 0) (hrad : 0 < s.radius)
    (hcb : CenterBetween s t0 t1 r.time) :
    Covers r (sphereBoundingBox s t0 t1) (sphereCands s r) := by
  intro mn mx u hu hmn hmx
  have ha : 0 < sphereA r := sphereA_pos r (hd .X)
  have hroot := sphereCands_root s r u ha hu
  have hdist := root_point_dist s r u hroot
  have hsum : (axisGet .X (r.at' u) - axisGet .X (s.center r.time)) ^ 2 +
      (axisGet .Y (r.at' u) - axisGet .Y (s.center r.time)) ^ 2 +
      (axisGet .Z (r.at' u) - axisGet .Z (s.center r.time)) ^ 2 =
      s.radius ^ 2 := by
    have h := hdist
    simp only [Vec3.lengthSquared, Vec3.sub_def, axisGet] at h ⊢
    rw [h]
    ring
  have hcomp : ∀ a : Axis,
      (axisGet a (r.at' u) - axisGet a (s.center r.time)) ^ 2 ≤ s.radius ^ 2 := by
    intro a
    cases a <;>
      nlinarith [sq_nonneg (axisGet .X (r.at' u) - axisGet .X (s.center r.time)),
        sq_nonneg (axisGet .Y (r.at' u) - axisGet .Y (s.center r.time)),
        sq_nonneg (axisGet .Z (r.at' u) - axisGet .Z (s.center r.time))]
  have hbounds : ∀ a : Axis,
      axisGet a (sphereBoundingBox s t0 t1).min ≤ axisGet a (r.at' u) ∧
        axisGet a (r.at' u) ≤ axisGet a (sphereBoundingBox s t0 t1).max := by
    intro a
    have h2 := hcomp a
    have hcb' := hcb a
    rw [sphereBox_min, sphereBox_max]
    constructor <;> nlinarith [hcb'.1, hcb'.2]
  have hslab : ∀ a : Axis,
      slabLo (sphereBoundingBox s t0 t1) r a ≤ u ∧
        u ≤ slabHi (sphereBoundingBox s t0 t1) r a := by
    intro a
    refine slab_bounds_of_point _ r a u (hd a) ?_ ?_
    · rw [← axisGet_at']
      exact (hbounds a).1
    · rw [← axisGet_at']
      exact (hbounds a).2
  have hboxlt : ∀ a : Axis,
      axisGet a (sphereBoundingBox s t0 t1).min <
        axisGet a (sphereBoundingBox s t0 t1).max := by
    intro a
    rw [sphereBox_min, sphereBox_max]
    have := min_le_max (a := axisGet a (s.center t0)) (b := axisGet a (s.center t1))
    linarith
  have hstrict : ∀ a : Axis,
      slabLo (sphereBoundingBox s t0 t1) r a <
        slabHi (sphereBoundingBox s t0 t1) r a :=
    fun a => slabLo_lt_slabHi _ r a (hd a) (hboxlt a)
  rw [aabbHit_iff]
  intro a
  rcases lt_or_eq_of_le (hslab a).1 with hlt | heq
  · have h1 : Max.max mn ((slabLo (sphereBoundingBox s t0 t1) r a : ℝ) : EReal) <
        ((u : ℝ) : EReal) :=
      max_lt hmn (EReal.coe_lt_coe_iff.mpr hlt)
    have h2 : ((u : ℝ) : EReal) ≤
        Min.min mx ((slabHi (sphereBoundingBox s t0 t1) r a : ℝ) : EReal) :=
      le_min hmx.le (EReal.coe_le_coe_iff.mpr (hslab a).2)
    exact lt_of_lt_of_le h1 h2
  · have hult : u < slabHi (sphereBoundingBox s t0 t1) r a := heq ▸ hstrict a
    have h1 : Max.max mn ((slabLo (sphereBoundingBox s t0 t1) r a : ℝ) : EReal) ≤
        ((u : ℝ) : EReal) :=
      max_le hmn.le (EReal.coe_le_coe_iff.mpr (hslab a).1)
    have h2 : ((u : ℝ) : EReal) <
        Min.min mx ((slabHi (sphereBoundingBox s t0 t1) r a : ℝ) : EReal) :=
      lt_min hmx (EReal.coe_lt_coe_iff.mpr hult)
    exact lt_of_le_of_lt h1 h2

theorem bvhSplitAux_nil (axes : List Axis) (t0 t1 : ℝ) :
    bvhSplitAux axes [] t0 t1 = (.ephemeral, axes) := by
  simp [bvhSplitAux]

theorem bvhSplitAux_singleton (axes : List Axis) (h : Hittable) (t0 t1 : ℝ) :
    bvhSplitAux axes [h] t0 t1 = (h, axes) := by
  simp [bvhSplitAux]

/-- Unfolding of `bvh_split_hittables` on a list of length at least two:
random axis, stable sort by the axis key, midpoint split, recursion on the
two halves threading the RNG state, and a `BVHNode::new` wrapper. -/
theorem bvhSplitAux_cons₂ (axes : List Axis) (a b : Hittable)
    (rest : List Hittable) (t0 t1 : ℝ) :
    bvhSplitAux axes (a :: b :: rest) t0 t1 =
      (bvhNodeNew
        (bvhSplitAux axes.tail
          (((a :: b :: rest).insertionSort (bvhKeyLe (axes.headD Axis.X) t0 t1)).take
            ((a :: b :: rest).length / 2)) t0 t1).1
        (bvhSplitAux
          (bvhSplitAux axes.tail
            (((a :: b :: rest).insertionSort (bvhKeyLe (axes.headD Axis.X) t0 t1)).take
              ((a :: b :: rest).length / 2)) t0 t1).2
          (((a :: b :: rest).insertionSort (bvhKeyLe (axes.headD Axis.X) t0 t1)).drop
            ((a :: b :: rest).length / 2)) t0 t1).1 t0 t1,
       (bvhSplitAux
          (bvhSplitAux axes.tail
            (((a :: b :: rest).insertionSort (bvhKeyLe (axes.headD Axis.X) t0 t1)).take
              ((a :: b :: rest).length / 2)) t0 t1).2
          (((a :: b :: rest).insertionSort (bvhKeyLe (axes.headD Axis.X) t0 t1)).drop
            ((a :: b :: rest).length / 2)) t0 t1).2) := by
  rw [bvhSplitAux]
  rfl

theorem boxSub_surrounding_left (a b : AABB) : boxSub a (surroundingBox a b) :=
  ⟨min_le_left _ _, min_le_left _ _, min_le_left _ _,
    le_max_left _ _, le_max_left _ _, le_max_left _ _⟩

theorem boxSub_surrounding_right (a b : AABB) : boxSub b (surroundingBox a b) :=
  ⟨min_le_right _ _, min_le_right _ _, min_le_right _ _,
    le_max_right _ _, le_max_right _ _, le_max_right _ _⟩

theorem covers_mono (r : Ray) (b b' : AABB) (ts : List ℝ)
    (hd : ∀ a : Axis, axisGet a r.direction ≠ 0) (hsub : boxSub b b')
    (hcov : Covers r b ts) : Covers r b' ts :=
  fun mn mx u hu h5 h6 =>
    aabbHit_mono b b' r mn mx hd hsub (hcov mn mx u hu h5 h6)

theorem covers_append (r : Ray) (b1 b2 : AABB) (ts1 ts2 : List ℝ)
    (hd : ∀ a : Axis, axisGet a r.direction ≠ 0)
    (hcov1 : Covers r b1 ts1) (hcov2 : Covers r b2 ts2) :
    Covers r (surroundingBox b1 b2) (ts1 ++ ts2) := by
  intro mn mx u hu h5 h6
  rcases List.mem_append.mp hu with h | h
  · exact covers_mono r b1 _ ts1 hd (boxSub_surrounding_left b1 b2) hcov1 mn mx u h h5 h6
  · exact covers_mono r b2 _ ts2 hd (boxSub_surrounding_right b1 b2) hcov2 mn mx u h h5 h6

/-- The composite step of the BVH soundness induction: wrapping two good
halves of a permutation of the input in a `BVHNode::new` node yields a good
tree for the input. -/
theorem bvh_good_step (r : Ray) (t0 t1 : ℝ)
    (hd : ∀ a : Axis, axisGet a r.direction ≠ 0)
    (orig srt : List Hittable) (p : ℕ) (axes : List Axis)
    (hperm : srt.Perm orig)
    (hL : BVHGood r t0 t1 (srt.take p) axes.tail)
    (hR : BVHGood r t0 t1 (srt.drop p) (bvhSplitAux axes.tail (srt.take p) t0 t1).2)
    (hLne : srt.take p ≠ []) (hRne : srt.drop p ≠ [])
    (heq : bvhSplit axes orig t0 t1 =
      bvhNodeNew (bvhSplit axes.tail (srt.take p) t0 t1)
        (bvhSplit (bvhSplitAux axes.tail (srt.take p) t0 t1).2 (srt.drop p) t0 t1)
        t0 t1) :
    BVHGood r t0 t1 orig axes := by
  obtain ⟨bl, hbl, hcovl⟩ := hL.2 hLne
  obtain ⟨br, hbr, hcovr⟩ := hR.2 hRne
  have hnode_eq : bvhNodeNew (bvhSplit axes.tail (srt.take p) t0 t1)
      (bvhSplit (bvhSplitAux axes.tail (srt.take p) t0 t1).2 (srt.drop p) t0 t1)
      t0 t1 =
      Hittable.bvhnode (bvhSplit axes.tail (srt.take p) t0 t1)
        (bvhSplit (bvhSplitAux axes.tail (srt.take p) t0 t1).2 (srt.drop p) t0 t1)
        (some (surroundingBox bl br)) := by
    unfold bvhNodeNew
    rw [hbl, hbr]
    rfl
  have hcand_mem : ∀ u : ℝ,
      u ∈ (((srt.take p).map (candH r)).flatten ++ ((srt.drop p).map (candH r)).flatten) ↔
        u ∈ (orig.map (candH r)).flatten := by
    intro u
    rw [← List.flatten_append, ← List.map_append, List.take_append_drop]
    simp only [List.mem_flatten, List.mem_map]
    constructor
    · rintro ⟨l, ⟨x, hx, rfl⟩, hul⟩
      exact ⟨candH r x, ⟨x, hperm.mem_iff.mp hx, rfl⟩, hul⟩
    · rintro ⟨l, ⟨x, hx, rfl⟩, hul⟩
      exact ⟨candH r x, ⟨x, hperm.mem_iff.mpr hx, rfl⟩, hul⟩
  have hcov :=
    covers_append r bl br _ _ hd hcovl hcovr
  constructor
  · rw [heq, hnode_eq]
    exact repH_congr hcand_mem
      (node_repH _ _ (surroundingBox bl br) _ _ r hL.1 hR.1 hcov)
  · intro _
    refine ⟨surroundingBox bl br, ?_, ?_⟩
    · rw [heq, hnode_eq]
      rfl
    · intro mn mx u hu h5 h6
      exact hcov mn mx u ((hcand_mem u).mpr hu) h5 h6

/-- BVH soundness: any tree built by `bvh_split_hittables` from sphere
leaves realizes closest-hit semantics over all leaf candidates. -/
theorem bvh_good (r : Ray) (t0 t1 : ℝ)
    (hd : ∀ a : Axis, axisGet a r.direction ≠ 0) :
    ∀ (n : ℕ) (hs : List Hittable), hs.length ≤ n → SphereLeaves r t0 t1 hs →
      ∀ axes : List Axis, BVHGood r t0 t1 hs axes := by
  intro n
  induction n with
  | zero =>
      intro hs hlen _ axes
      have : hs = [] := List.length_eq_zero.mp (Nat.le_zero.mp hlen)
      subst this
      constructor
      · intro mn mx
        unfold bvhSplit
        rw [bvhSplitAux_nil]
        simpa only [List.map_nil, List.flatten_nil] using invAt_none_nil mn mx
      · intro hne
        exact absurd rfl hne
  | succ m ih =>
      intro hs
      cases hs with
      | nil =>
          intro hlen hleaves axes
          constructor
          · intro mn mx
            unfold bvhSplit
            rw [bvhSplitAux_nil]
            simpa only [List.map_nil, List.flatten_nil] using invAt_none_nil mn mx
          · intro hne
            exact absurd rfl hne
      | cons a tail =>
        cases tail with
        | nil =>
          intro hlen hleaves axes
          obtain ⟨s, rfl, hrad, hcb⟩ := hleaves a (List.mem_singleton.mpr rfl)
          have hmem : ∀ u : ℝ, u ∈ sphereCands s r ↔
              u ∈ (([Hittable.sphere s]).map (candH r)).flatten := by
            intro u
            simp [candH]
          constructor
          · intro mn mx
            unfold bvhSplit
            rw [bvhSplitAux_singleton]
            exact repH_congr hmem (sphereHit_repH s r (sphereA_pos r (hd .X))) mn mx
          · intro _
            refine ⟨sphereBoundingBox s t0 t1, ?_, ?_⟩
            · unfold bvhSplit
              rw [bvhSplitAux_singleton]
              rfl
            · intro mn mx u hu h5 h6
              exact sphere_covers s r t0 t1 hd hrad hcb mn mx u ((hmem u).mpr hu) h5 h6
        | cons b rest =>
          intro hlen hleaves axes
          have hperm : ((a :: b :: rest).insertionSort
              (bvhKeyLe (axes.headD Axis.X) t0 t1)).Perm (a :: b :: rest) :=
            List.perm_insertionSort _ _
          have hsrtlen : ((a :: b :: rest).insertionSort
              (bvhKeyLe (axes.headD Axis.X) t0 t1)).length = rest.length + 2 := by
            rw [hperm.length_eq]
            simp
          have hNlen : rest.length + 2 ≤ m + 1 := by
            simpa using hlen
          have hleaves_srt : SphereLeaves r t0 t1
              ((a :: b :: rest).insertionSort (bvhKeyLe (axes.headD Axis.X) t0 t1)) :=
            fun h hh => hleaves h (hperm.mem_iff.mp hh)
          have hleaves_take : SphereLeaves r t0 t1
              (((a :: b :: rest).insertionSort
                (bvhKeyLe (axes.headD Axis.X) t0 t1)).take ((a :: b :: rest).length / 2)) :=
            fun h hh => hleaves_srt h (List.take_subset _ _ hh)
          have hleaves_drop : SphereLeaves r t0 t1
              (((a :: b :: rest).insertionSort
                (bvhKeyLe (axes.headD Axis.X) t0 t1)).drop ((a :: b :: rest).length / 2)) :=
            fun h hh => hleaves_srt h (List.drop_subset _ _ hh)
          have htake_len : (((a :: b :: rest).insertionSort
              (bvhKeyLe (axes.headD Axis.X) t0 t1)).take
              ((a :: b :: rest).length / 2)).length = (a :: b :: rest).length / 2 := by
            rw [List.length_take, hsrtlen]
            simp only [List.length_cons]
            omega
          have hdrop_len : (((a :: b :: rest).insertionSort
              (bvhKeyLe (axes.headD Axis.X) t0 t1)).drop
              ((a :: b :: rest).length / 2)).length =
              rest.length + 2 - (a :: b :: rest).length / 2 := by
            rw [List.length_drop, hsrtlen]
          have hL := ih (((a :: b :: rest).insertionSort
              (bvhKeyLe (axes.headD Axis.X) t0 t1)).take ((a :: b :: rest).length / 2))
            (by rw [htake_len]; simp only [List.length_cons]; omega)
            hleaves_take axes.tail
          have hR := ih (((a :: b :: rest).insertionSort
              (bvhKeyLe (axes.headD Axis.X) t0 t1)).drop ((a :: b :: rest).length / 2))
            (by rw [hdrop_len]; simp only [List.length_cons]; omega)
            hleaves_drop
            (bvhSplitAux axes.tail
              (((a :: b :: rest).insertionSort
                (bvhKeyLe (axes.headD Axis.X) t0 t1)).take ((a :: b :: rest).length / 2))
              t0 t1).2
          refine bvh_good_step r t0 t1 hd (a :: b :: rest) _ ((a :: b :: rest).length / 2)
            axes hperm hL hR ?_ ?_ ?_
          · intro hcontra
            have := congrArg List.length hcontra
            rw [htake_len] at this
            simp only [List.length_nil, List.length_cons] at this
            omega
          · intro hcontra
            have := congrArg List.length hcontra
            rw [hdrop_len] at this
            simp only [List.length_nil, List.length_cons] at this
            omega
          · unfold bvhSplit
            rw [bvhSplitAux_cons₂]

/-- Claim C1: for every scene list of sphere primitives (positive radii,
centers coherent with the build window at the ray's time), every ray with
nonzero direction components and every interval, the BVH built by
`bvh_split_hittables` returns the same closest hit parameter `t` as a
linear `Collection` scan over the same primitives, regardless of the
random axis draws. -/
theorem claim_C1 (spheres : List Sphere) (axes : List Axis) (t0 t1 : ℝ)
    (r : Ray) (mn mx : EReal)
    (hd : ∀ a : Axis, axisGet a r.direction ≠ 0)
    (hgood : ∀ s ∈ spheres, 0 < s.radius ∧ CenterBetween s t0 t1 r.time) :
    (hitH (bvhSplit axes (spheres.map Hittable.sphere) t0 t1) r mn mx).map Hit.t =
      (collectionHit (spheres.map Hittable.sphere) r mn mx).map Hit.t := by
  have hleaves : SphereLeaves r t0 t1 (spheres.map Hittable.sphere) := by
    intro h hh
    obtain ⟨s, hs, rfl⟩ := List.mem_map.mp hh
    exact ⟨s, rfl, (hgood s hs).1, (hgood s hs).2⟩
  have hbvh := (bvh_good r t0 t1 hd (spheres.map Hittable.sphere).length
    (spheres.map Hittable.sphere) le_rfl hleaves axes).1
  have hcoll := collection_repH r (spheres.map Hittable.sphere) ?_
  · exact repH_t_eq hbvh hcoll (fun u => Iff.rfl) mn mx
  · intro h hh
    obtain ⟨s, _, rfl⟩ := List.mem_map.mp hh
    exact sphereHit_repH s r (sphereA_pos r (hd .X))

/-- Witness for C1: a concrete two-sphere scene, a concrete axis draw and
ray, and the interval `(0, +infinity)`. -/
theorem claim_C1_witness :
    (hitH (bvhSplit [Axis.X]
        ([Sphere.new ⟨0, 0, 0⟩ 1 (.lambertian ⟨1, 1, 1⟩),
          Sphere.new ⟨0, 0, 5⟩ 1 (.metal ⟨1, 1, 1⟩ 0)].map Hittable.sphere) 0 1)
        ⟨⟨-3, 0, 0⟩, ⟨1, 1, 1⟩, 0⟩ ((0 : ℝ) : EReal) ⊤).map Hit.t =
      (collectionHit
        ([Sphere.new ⟨0, 0, 0⟩ 1 (.lambertian ⟨1, 1, 1⟩),
          Sphere.new ⟨0, 0, 5⟩ 1 (.metal ⟨1, 1, 1⟩ 0)].map Hittable.sphere)
        ⟨⟨-3, 0, 0⟩, ⟨1, 1, 1⟩, 0⟩ ((0 : ℝ) : EReal) ⊤).map Hit.t := by
  refine claim_C1 _ [Axis.X] 0 1 ⟨⟨-3, 0, 0⟩, ⟨1, 1, 1⟩, 0⟩ ((0 : ℝ) : EReal) ⊤
    ?_ ?_
  · intro a
    cases a <;> norm_num [axisGet]
  · intro s hs
    simp only [List.mem_cons, List.mem_singleton] at hs
    have hbase : ∀ (c : Vec3) (m : Material),
        0 < (Sphere.new c 1 m).radius ∧
          CenterBetween (Sphere.new c 1 m) 0 1
            (Ray.mk ⟨-3, 0, 0⟩ ⟨1, 1, 1⟩ 0).time := by
      intro c m
      refine ⟨by rw [sphereNew_radius]; norm_num, ?_⟩
      intro a
      simp only [sphereNew_center]
      exact ⟨le_of_eq (min_self _), le_of_eq (max_self _).symm⟩
    rcases hs with rfl | rfl | h
    · exact hbase _ _
    · exact hbase _ _
    · exact absurd h (List.not_mem_nil s)

/-- Claim C5: `bvh_split_hittables` returns the never-hitting, box-less
`Ephemeral` on an empty list, returns a singleton element unwrapped, and
otherwise sorts by the bounding-box minimum on the drawn axis (a box-less
primitive sorting with key `0.0`), splits at `len/2` and wraps the two
recursive halves in a `BVHNode` caching the union of the children's
boxes. -/
theorem claim_C5 (axes : List Axis) (t0 t1 : ℝ) :
    (bvhSplit axes [] t0 t1 = .ephemeral ∧
      (∀ (r : Ray) (mn mx : EReal), hitH .ephemeral r mn mx = none) ∧
      (∀ u v : ℝ, boundingBoxH .ephemeral u v = none)) ∧
      (∀ h : Hittable, bvhSplit axes [h] t0 t1 = h) ∧
      (∀ (axis : Axis) (h : Hittable),
        boundingBoxH h t0 t1 = none → minOnAxis axis h t0 t1 = 0) ∧
      (∀ left right : Hittable,
        boundingBoxH (bvhNodeNew left right t0 t1) t0 t1 =
          mergeBoxOpt (boundingBoxH left t0 t1) (boundingBoxH right t0 t1)) ∧
      ∀ hs : List Hittable, 2 ≤ hs.length →
        ∃ axes1 : List Axis,
          bvhSplitAux axes.tail
              ((hs.insertionSort (bvhKeyLe (axes.headD Axis.X) t0 t1)).take
                (hs.length / 2)) t0 t1 =
            (bvhSplit axes.tail
              ((hs.insertionSort (bvhKeyLe (axes.headD Axis.X) t0 t1)).take
                (hs.length / 2)) t0 t1, axes1) ∧
          bvhSplit axes hs t0 t1 =
            bvhNodeNew
              (bvhSplit axes.tail
                ((hs.insertionSort (bvhKeyLe (axes.headD Axis.X) t0 t1)).take
                  (hs.length / 2)) t0 t1)
              (bvhSplit axes1
                ((hs.insertionSort (bvhKeyLe (axes.headD Axis.X) t0 t1)).drop
                  (hs.length / 2)) t0 t1) t0 t1 := by
  refine ⟨⟨?_, fun r mn mx => rfl, fun u v => rfl⟩, fun h => ?_, ?_, fun l rg => rfl, ?_⟩
  · unfold bvhSplit
    rw [bvhSplitAux_nil]
  · unfold bvhSplit
    rw [bvhSplitAux_singleton]
  · intro axis h hnone
    unfold minOnAxis
    rw [hnone]
    rfl
  · intro hs hlen
    match hs with
    | [] => simp at hlen
    | [h] => simp at hlen
    | a :: b :: rest =>
        refine ⟨(bvhSplitAux axes.tail
          (((a :: b :: rest).insertionSort (bvhKeyLe (axes.headD Axis.X) t0 t1)).take
            ((a :: b :: rest).length / 2)) t0 t1).2, rfl, ?_⟩
        unfold bvhSplit
        rw [bvhSplitAux_cons₂]

/-- Witness for C5: concrete split of a two-element list, and the zero sort
key of the box-less `Ephemeral`. -/
theorem claim_C5_witness :
    (∃ axes1 : List Axis,
      bvhSplitAux ([Axis.X] : List Axis).tail
          ((([Hittable.ephemeral, Hittable.ephemeral] : List Hittable).insertionSort
            (bvhKeyLe (([Axis.X] : List Axis).headD Axis.X) 0 1)).take
            (([Hittable.ephemeral, Hittable.ephemeral] : List Hittable).length / 2)) 0 1 =
        (bvhSplit ([Axis.X] : List Axis).tail
          ((([Hittable.ephemeral, Hittable.ephemeral] : List Hittable).insertionSort
            (bvhKeyLe (([Axis.X] : List Axis).headD Axis.X) 0 1)).take
            (([Hittable.ephemeral, Hittable.ephemeral] : List Hittable).length / 2)) 0 1,
          axes1) ∧
        bvhSplit [Axis.X] [Hittable.ephemeral, Hittable.ephemeral] 0 1 =
          bvhNodeNew
            (bvhSplit ([Axis.X] : List Axis).tail
              ((([Hittable.ephemeral, Hittable.ephemeral] : List Hittable).insertionSort
                (bvhKeyLe (([Axis.X] : List Axis).headD Axis.X) 0 1)).take
                (([Hittable.ephemeral, Hittable.ephemeral] : List Hittable).length / 2)) 0 1)
            (bvhSplit axes1
              ((([Hittable.ephemeral, Hittable.ephemeral] : List Hittable).insertionSort
                (bvhKeyLe (([Axis.X] : List Axis).headD Axis.X) 0 1)).drop
                (([Hittable.ephemeral, Hittable.ephemeral] : List Hittable).length / 2)) 0 1)
            0 1) ∧
      minOnAxis Axis.Y Hittable.ephemeral 0 1 = 0 :=
  ⟨(claim_C5 [Axis.X] 0 1).2.2.2.2 [Hittable.ephemeral, Hittable.ephemeral] (by norm_num),
   (claim_C5 [Axis.X] 0 1).2.2.1 Axis.Y Hittable.ephemeral rfl⟩

theorem string_join_cons (a : String) (l : List String) :
    String.join (a :: l) = a ++ String.join l := by
  simp only [String.join_eq, List.map_cons, List.flatten_cons]
  rfl

/-- A left fold of appends equals the initial string followed by the joined
mapped pieces. -/
theorem foldl_append_eq_join {α : Type} (f : α → String) :
    ∀ (l : List α) (init : String),
      l.foldl (fun acc x => acc ++ f x) init = init ++ String.join (l.map f)
  | [], init => by
      simp only [List.foldl_nil, List.map_nil]
      exact (String.append_empty init).symm
  | a :: l, init => by
      rw [List.foldl_cons, foldl_append_eq_join f l (init ++ f a), List.map_cons,
        string_join_cons, String.append_assoc]

/-- `write` of `src/ppm.rs` as header plus joined pixel lines, rows from
`height-1` down to `0`. -/
theorem ppmWrite_join (c : Canvas) :
    ppmWrite c =
      "P3\n" ++ toString c.width ++ " " ++ toString c.height ++ "\n255\n" ++
        String.join ((List.range c.height).reverse.map (fun j =>
          String.join ((List.range c.width).map (fun i => writePixel (c.at' j i))))) := by
  unfold ppmWrite
  have hrow : ∀ (j : ℕ) (acc : String),
      (List.range c.width).foldl (fun acc2 i => acc2 ++ writePixel (c.at' j i)) acc =
        acc ++ String.join ((List.range c.width).map fun i => writePixel (c.at' j i)) :=
    fun j acc => foldl_append_eq_join _ _ _
  simp only [hrow]
  rw [foldl_append_eq_join]

theorem f64AsU8_255 : f64AsU8 ((255 : ℝ) * 255.99) = 255 := by
  unfold f64AsU8
  have h : (⌊(255 : ℝ) * 255.99⌋ : ℤ) = 65277 := by
    rw [Int.floor_eq_iff] <;> norm_num
  rw [h]
  rfl

theorem f64AsU8_128 : f64AsU8 ((128 : ℝ) * 255.99) = 255 := by
  unfold f64AsU8
  have h : (⌊(128 : ℝ) * 255.99⌋ : ℤ) = 32766 := by
    rw [Int.floor_eq_iff] <;> norm_num
  rw [h]
  rfl

theorem f64AsU8_zero : f64AsU8 ((0 : ℝ) * 255.99) = 0 := by
  unfold f64AsU8
  have h : (⌊(0 : ℝ) * 255.99⌋ : ℤ) = 0 := by
    rw [Int.floor_eq_iff] <;> norm_num
  rw [h]
  rfl

theorem f64AsU8_norm255 : f64AsU8 ((1 : ℝ) * 255.99) = 255 := by
  unfold f64AsU8
  have h : (⌊(1 : ℝ) * 255.99⌋ : ℤ) = 255 := by
    rw [Int.floor_eq_iff] <;> norm_num
  rw [h]
  rfl

theorem f64AsU8_norm128 : f64AsU8 ((128 / 255 : ℝ) * 255.99) = 128 := by
  unfold f64AsU8
  have h : (⌊(128 / 255 : ℝ) * 255.99⌋ : ℤ) = 128 := by
    rw [Int.floor_eq_iff] <;> norm_num
  rw [h]
  rfl

/-- Claim C9 (amended): the PPM writer emits the ASCII header
`P3\n{width} {height}\n255\n` followed by one `R G B` decimal line per
pixel in the renderer's row order (rows `height-1` down to `0`), each
channel scaled by `255.99` and cast to `u8`; a 1x1 buffer holding the
normalized color `(1, 128/255, 0)` (the float encoding of the 8-bit color
`(255,128,0,255)`) encodes to the literal text `P3\n1 1\n255\n255 128 0\n`. -/
theorem claim_C9 :
    (∀ c : Canvas,
      ppmWrite c =
        "P3\n" ++ toString c.width ++ " " ++ toString c.height ++ "\n255\n" ++
          String.join ((List.range c.height).reverse.map (fun j =>
            String.join ((List.range c.width).map (fun i => writePixel (c.at' j i)))))) ∧
      (∀ p : Vec3,
        writePixel p =
          toString (f64AsU8 (p.x * 255.99)) ++ " " ++ toString (f64AsU8 (p.y * 255.99)) ++
            " " ++ toString (f64AsU8 (p.z * 255.99)) ++ "\n") ∧
      ppmWrite ⟨1, 1, fun _ _ => ⟨1, 128 / 255, 0⟩⟩ = "P3\n1 1\n255\n255 128 0\n" := by
  refine ⟨ppmWrite_join, fun p => rfl, ?_⟩
  rw [ppmWrite_join]
  simp only [List.range_succ, List.range_zero, List.nil_append, List.reverse_singleton, List.map_cons, List.map_nil,
    Canvas.at']
  rw [show writePixel ⟨1, 128 / 255, 0⟩ =
      toString (255 : ℕ) ++ " " ++ toString (128 : ℕ) ++ " " ++ toString (0 : ℕ) ++ "\n" by
    unfold writePixel
    rw [show f64AsU8 ((Vec3.mk 1 (128 / 255) 0).x * 255.99) = 255 from f64AsU8_norm255,
      show f64AsU8 ((Vec3.mk 1 (128 / 255) 0).y * 255.99) = 128 from f64AsU8_norm128,
      show f64AsU8 ((Vec3.mk 1 (128 / 255) 0).z * 255.99) = 0 from f64AsU8_zero]]
  rfl

/-- Counterexample for C9 as frozen: a buffer literally holding the color
`(255, 128, 0)` does not encode to `P3\n1 1\n255\n255 128 0\n` (the
`*255.99` u8 cast saturates), but to `P3\n1 1\n255\n255 255 0\n`. -/
theorem claim_C9_counterexample :
    ppmWrite ⟨1, 1, fun _ _ => ⟨255, 128, 0⟩⟩ ≠ "P3\n1 1\n255\n255 128 0\n" ∧
      ppmWrite ⟨1, 1, fun _ _ => ⟨255, 128, 0⟩⟩ = "P3\n1 1\n255\n255 255 0\n" := by
  have h : ppmWrite ⟨1, 1, fun _ _ => ⟨255, 128, 0⟩⟩ = "P3\n1 1\n255\n255 255 0\n" := by
    rw [ppmWrite_join]
    simp only [List.range_succ, List.range_zero, List.nil_append, List.reverse_singleton, List.map_cons, List.map_nil,
      Canvas.at']
    rw [show writePixel ⟨255, 128, 0⟩ =
        toString (255 : ℕ) ++ " " ++ toString (255 : ℕ) ++ " " ++ toString (0 : ℕ) ++ "\n" by
      unfold writePixel
      rw [show f64AsU8 ((Vec3.mk 255 128 0).x * 255.99) = 255 from f64AsU8_255,
        show f64AsU8 ((Vec3.mk 255 128 0).y * 255.99) = 255 from f64AsU8_128,
        show f64AsU8 ((Vec3.mk 255 128 0).z * 255.99) = 0 from f64AsU8_zero]]
    rfl
  refine ⟨?_, h⟩
  rw [h]
  decide

/-- Claim C7: for all AABBs with componentwise ordered corners,
`surrounding_box(a, b)` contains both `a` and `b`, and surrounding again
with either argument is idempotent. -/
theorem claim_C7 (a b : AABB)
    (ha : a.min.x ≤ a.max.x ∧ a.min.y ≤ a.max.y ∧ a.min.z ≤ a.max.z)
    (hb : b.min.x ≤ b.max.x ∧ b.min.y ≤ b.max.y ∧ b.min.z ≤ b.max.z) :
    boxSub a (surroundingBox a b) ∧ boxSub b (surroundingBox a b) ∧
      surroundingBox (surroundingBox a b) b = surroundingBox a b ∧
      surroundingBox (surroundingBox a b) a = surroundingBox a b := by
  refine ⟨?_, ?_, ?_, ?_⟩
  · exact ⟨min_le_left _ _, min_le_left _ _, min_le_left _ _,
      le_max_left _ _, le_max_left _ _, le_max_left _ _⟩
  · exact ⟨min_le_right _ _, min_le_right _ _, min_le_right _ _,
      le_max_right _ _, le_max_right _ _, le_max_right _ _⟩
  · unfold surroundingBox
    ext <;> simp [min_assoc, max_assoc]
  · unfold surroundingBox
    ext <;>
      simp [min_comm, min_assoc, min_left_comm, max_comm, max_assoc,
        max_left_comm]

/-- Witness for C7 at concrete boxes. -/
theorem claim_C7_witness :
    boxSub ⟨⟨0, 0, 0⟩, ⟨1, 1, 1⟩⟩
        (surroundingBox ⟨⟨0, 0, 0⟩, ⟨1, 1, 1⟩⟩ ⟨⟨-1, 0, 0⟩, ⟨2, 2, 2⟩⟩) ∧
      boxSub ⟨⟨-1, 0, 0⟩, ⟨2, 2, 2⟩⟩
        (surroundingBox ⟨⟨0, 0, 0⟩, ⟨1, 1, 1⟩⟩ ⟨⟨-1, 0, 0⟩, ⟨2, 2, 2⟩⟩) ∧
      surroundingBox
          (surroundingBox ⟨⟨0, 0, 0⟩, ⟨1, 1, 1⟩⟩ ⟨⟨-1, 0, 0⟩, ⟨2, 2, 2⟩⟩)
          ⟨⟨-1, 0, 0⟩, ⟨2, 2, 2⟩⟩ =
        surroundingBox ⟨⟨0, 0, 0⟩, ⟨1, 1, 1⟩⟩ ⟨⟨-1, 0, 0⟩, ⟨2, 2, 2⟩⟩ ∧
      surroundingBox
          (surroundingBox ⟨⟨0, 0, 0⟩, ⟨1, 1, 1⟩⟩ ⟨⟨-1, 0, 0⟩, ⟨2, 2, 2⟩⟩)
          ⟨⟨0, 0, 0⟩, ⟨1, 1, 1⟩⟩ =
        surroundingBox ⟨⟨0, 0, 0⟩, ⟨1, 1, 1⟩⟩ ⟨⟨-1, 0, 0⟩, ⟨2, 2, 2⟩⟩ :=
  claim_C7 _ _ (by norm_num) (by norm_num)

/-- Claim C8: both `ray_color` implementations (`src/draw.rs` and the
`trace` module of `src/main.rs`) return exactly black at depth 0, for
every RNG stream, ray and scene. -/
theorem claim_C8 :
    (∀ (rng : ℕ → Vec3 × ℝ) (ray : Ray) (world : Hittable),
        rayColor rng ray world 0 = ⟨⟨0, 0, 0⟩⟩) ∧
      ∀ (rng : ℕ → Vec3) (ray : Ray) (world : Hittable),
        rayColorMain rng ray world 0 = ⟨⟨0, 0, 0⟩⟩ :=
  ⟨fun _ _ _ => rfl, fun _ _ _ => rfl⟩

/-- Claim C4: `Lambertian::scatter` and `Dielectric::scatter` always return
`Some`; `Metal::scatter` returns `None` exactly when the fuzz-perturbed
reflected direction has non-positive dot product with the hit normal. -/
theorem claim_C4 :
    (∀ (albedo : Vec3) (ray : Ray) (hit : Hit) (ball : Vec3) (u : ℝ),
        (scatter (.lambertian albedo) ray hit ball u).isSome = true) ∧
      (∀ (refIdx : ℝ) (ray : Ray) (hit : Hit) (ball : Vec3) (u : ℝ),
        (scatter (.dielectric refIdx) ray hit ball u).isSome = true) ∧
      ∀ (albedo : Vec3) (fuzz : ℝ) (ray : Ray) (hit : Hit) (ball : Vec3) (u : ℝ),
        scatter (.metal albedo fuzz) ray hit ball u = none ↔
          (reflect ray.direction.unit hit.normal + fuzz • ball).dot hit.normal ≤ 0 := by
  refine ⟨fun _ _ _ _ _ => rfl, fun refIdx ray hit ball u => ?_, ?_⟩
  · simp only [scatter]
    split <;> (split <;> rfl)
  · intro albedo fuzz ray hit ball u
    simp only [scatter, Ray.newAt]
    split
    · rename_i h
      simp only [reduceCtorEq, false_iff, not_le]
      exact h
    · rename_i h
      simp only [true_iff]
      exact le_of_not_lt h

/-- Claim C10: `Sphere::new` encodes a static sphere as a moving sphere
whose second keyframe time is `+infinity`; its interpolated center equals
the constructed center exactly at every finite ray time, so its hit test
and bounding box are independent of the query times. -/
theorem claim_C10 (c : Vec3) (radius : ℝ) (material : Material) :
    (Sphere.new c radius material).center1.time = ⊤ ∧
      (∀ t : ℝ, (Sphere.new c radius material).center t = c) ∧
      (∀ (o d : Vec3) (τ τ' : ℝ) (mn mx : EReal),
        hitH (.sphere (Sphere.new c radius material)) ⟨o, d, τ⟩ mn mx =
          hitH (.sphere (Sphere.new c radius material)) ⟨o, d, τ'⟩ mn mx) ∧
      ∀ t0 t1 t0' t1' : ℝ,
        boundingBoxH (.sphere (Sphere.new c radius material)) t0 t1 =
          boundingBoxH (.sphere (Sphere.new c radius material)) t0' t1' := by
  refine ⟨rfl, sphereNew_center c radius material, ?_, ?_⟩
  · intro o d τ τ' mn mx
    simp only [hitH, sphereHit, sphereNew_center, Ray.at', hitNew]
  · intro t0 t1 t0' t1'
    simp only [boundingBoxH, sphereBoundingBox, sphereNew_center]

end Raytrace
